import Mathlib

/-!
Verification development for the candid language server.

The Rust sources under `src/` are embedded shallowly: documents are sequences
of Unicode scalar values (`ropey` indexes ropes by chars and all `Span`s in
this codebase are char offsets), machine-integer arena indices are `Nat`,
fallible operations return `Option`/`Except`, and the stateful structures
(`SymbolTable`, `HoverOffsetCache`, task generation counters, the analysis
context) are threaded explicitly.  Each definition mirrors the source
function of the same name.
-/

set_option autoImplicit false

namespace CandidLS

/-! ## Text model

Rust `&str` / `ropey::Rope` values are modelled as `List Char`.  Rust's
byte-index string APIs (`find`, `rfind`, slicing) are modelled at character
granularity: every caller in this codebase immediately converts byte indices
to char counts (`text[..idx].chars().count()`), so on the char-sequence model
the two coincide. -/

abbrev Rope := List Char

/-- `'\x7b'` (the opening curly brace), kept as a named constant. -/
def braceOpen : Char := Char.ofNat 123

/-- `'\x7d'` (the closing curly brace). -/
def braceClose : Char := Char.ofNat 125

/-- `'"'` (the double quote). -/
def quoteChar : Char := Char.ofNat 34

namespace Text

/-- Rust `char::is_whitespace` (agrees with `Char.isWhitespace` on the ASCII
documents this server manipulates). -/
def isWs (c : Char) : Bool := c.isWhitespace

/-- Rust `str::trim_start`. -/
def trimStart (s : List Char) : List Char := s.dropWhile isWs

/-- Rust `str::trim_end`. -/
def trimEnd (s : List Char) : List Char := (s.reverse.dropWhile isWs).reverse

/-- Rust `str::trim`. -/
def trim (s : List Char) : List Char := trimStart (trimEnd s)

/-- All character positions at which `needle` occurs in `hay`, in increasing
order. -/
def matchIndices (hay needle : List Char) : List Nat :=
  (List.range (hay.length + 1)).filter (fun i => needle.isPrefixOf (hay.drop i))

/-- Rust `str::find` for a substring pattern (position of the first match). -/
def findSub? (hay needle : List Char) : Option Nat := (matchIndices hay needle).head?

/-- Rust `str::rfind` / `str::rmatch_indices(..).next()` (position of the last
match). -/
def rfindSub? (hay needle : List Char) : Option Nat := (matchIndices hay needle).getLast?

/-- Rust `str::contains` for a substring pattern. -/
def containsSub (hay needle : List Char) : Bool := (findSub? hay needle).isSome

/-- Rust `str::starts_with`. -/
def startsWith (hay needle : List Char) : Bool := needle.isPrefixOf hay

/-- Rust `str::ends_with`. -/
def endsWith (hay needle : List Char) : Bool := needle.isSuffixOf hay

/-- Rust `str::strip_prefix` (drop a leading occurrence of `needle`). -/
def stripLeading? (hay needle : List Char) : Option (List Char) :=
  if needle.isPrefixOf hay then some (hay.drop needle.length) else none

/-- Rust `str::split_whitespace().next()`: the first whitespace-delimited
word (empty when the string is all whitespace). -/
def firstWord (s : List Char) : List Char :=
  (trimStart s).takeWhile (fun c => ¬ isWs c)

/-- The character slice `s[a..b]` of a char-indexed string. -/
def sliceChars (s : List Char) (a b : Nat) : List Char := (s.take b).drop a

/-- Rust `rsplit(delims).next()`: the suffix after the last occurrence of any
delimiter (the whole string when none occurs). -/
def afterLastDelim (s : List Char) (delims : List Char) : List Char :=
  match ((List.range s.length).filter
      (fun i => match s[i]? with
        | some c => delims.contains c
        | none => false)).getLast? with
  | some i => s.drop (i + 1)
  | none => s

end Text

/-! ## Rope line arithmetic (`ropey` semantics)

`ropey` counts `len_lines = (number of '\n') + 1`; a line slice includes its
terminating `'\n'`; `line_to_char` accepts a one-past-the-end line index and
returns `len_chars` for it; `char_to_line` accepts `len_chars` and returns
the last line index. -/

namespace RopeOps

def lenChars (r : Rope) : Nat := r.length

/-- Positions of the newline characters of `r`. -/
def nlPositions (r : Rope) : List Nat := Text.matchIndices r ['\n']

def lenLines (r : Rope) : Nat := (r.filter (fun c => c = '\n')).length + 1

/-- `ropey` `char_to_line` (total form; callers guard the offset). -/
def charToLine (r : Rope) (c : Nat) : Nat := ((r.take c).filter (fun c => c = '\n')).length

/-- `ropey` `try_char_to_line`: errs exactly when the offset is past the end. -/
def tryCharToLine (r : Rope) (c : Nat) : Option Nat :=
  if c ≤ lenChars r then some (charToLine r c) else none

/-- `ropey` `line_to_char` (total form; `l = lenLines` yields `lenChars`). -/
def lineToChar (r : Rope) (l : Nat) : Nat :=
  if l = 0 then 0
  else
    match (nlPositions r)[l - 1]? with
    | some p => p + 1
    | none => r.length

/-- `ropey` `try_line_to_char`: errs exactly when the line index is more than
one past the end. -/
def tryLineToChar (r : Rope) (l : Nat) : Option Nat :=
  if l ≤ lenLines r then some (lineToChar r l) else none

/-- Character length of line `l` including its terminating newline
(`rope.line(l).len_chars()` for `l < lenLines`). -/
def lineLen (r : Rope) (l : Nat) : Nat := lineToChar r (l + 1) - lineToChar r l

/-- The slice `rope.line(l)` (including the terminating newline). -/
def lineSlice (r : Rope) (l : Nat) : List Char :=
  Text.sliceChars r (lineToChar r l) (lineToChar r (l + 1))

end RopeOps

/-! ## `span.rs` / `position.rs` -/

/-- A half-open `[start, stop)` char-offset range (Rust `Range<usize>`; the
source's `end` field is spelt `stop` because `end` is reserved in Lean). -/
structure Span where
  start : Nat
  stop : Nat
  deriving DecidableEq, Repr

/-- LSP `Position` (`line`/`character` are `u32` on the wire; constructions
from `usize` values truncate, which the embedding records with `% 2 ^ 32`). -/
structure Position where
  line : Nat
  character : Nat
  deriving DecidableEq, Repr

open RopeOps in
/-- `position.rs::offset_to_position`. -/
def offset_to_position (offset : Nat) (rope : Rope) : Option Position :=
  match tryCharToLine rope offset with
  | none => none
  | some line =>
    match tryLineToChar rope line with
    | none => none
    | some first_char_of_line =>
      some ⟨line % 2 ^ 32, (offset - first_char_of_line) % 2 ^ 32⟩

open RopeOps in
/-- `position.rs::position_to_offset`. -/
def position_to_offset (position : Position) (rope : Rope) : Option Nat :=
  let line_idx := position.line
  if line_idx ≥ lenLines rope then none
  else
    match tryLineToChar rope line_idx with
    | none => none
    | some line_start =>
      let column := position.character
      if column > (lineSlice rope line_idx).length then none
      else some (line_start + column)

/-! ## `symbol_table.rs` -/

/-- `SymbolId` (a `u32` arena index; arena indices are consecutive `Nat`s). -/
abbrev SymbolId := Nat

abbrev ReferenceId := Nat

structure Reference where
  span : Span
  symbol_id : Option SymbolId
  deriving DecidableEq, Repr

inductive ImportKind where
  | Type
  | Service
  deriving DecidableEq, Repr

structure ImportEntry where
  kind : ImportKind
  path : String
  span : Span
  symbol_id : SymbolId
  deriving DecidableEq, Repr

/-- Insert-replacing-update for a `HashMap` modelled as an association list
(the iteration order of a `HashMap` is never observed by this codebase). -/
def mapInsert {κ ν : Type} [DecidableEq κ] (m : List (κ × ν)) (k : κ) (v : ν) :
    List (κ × ν) :=
  (k, v) :: m.filter (fun e => e.1 ≠ k)

def mapGet? {κ ν : Type} [DecidableEq κ] (m : List (κ × ν)) (k : κ) : Option ν :=
  (m.find? (fun e => decide (e.1 = k))).map (fun e => e.2)

/-- `HashMap::entry(k).or_default().push(v)` for a multimap to lists. -/
def mmapPush {κ ν : Type} [DecidableEq κ] (m : List (κ × List ν)) (k : κ) (v : ν) :
    List (κ × List ν) :=
  if (m.find? (fun e => decide (e.1 = k))).isSome then
    m.map (fun e => if e.1 = k then (e.1, e.2 ++ [v]) else e)
  else
    m ++ [(k, [v])]

structure SymbolTable where
  span_to_symbol_id : List (Span × SymbolId)
  symbol_id_to_span : List Span
  reference_id_to_reference : List Reference
  span_to_reference_id : List (Span × ReferenceId)
  symbol_id_to_references : List (SymbolId × List ReferenceId)
  imports : List ImportEntry
  deriving DecidableEq, Repr

def SymbolTable.default : SymbolTable := ⟨[], [], [], [], [], []⟩

/-- `SymbolTable::add_symbol` (returns the fresh id together with the updated
table; the Rust method mutates in place). -/
def SymbolTable.add_symbol (t : SymbolTable) (span : Span) : SymbolId × SymbolTable :=
  let symbol_id := t.symbol_id_to_span.length
  (symbol_id,
    { t with
      symbol_id_to_span := t.symbol_id_to_span ++ [span]
      span_to_symbol_id := mapInsert t.span_to_symbol_id span symbol_id })

/-- `SymbolTable::add_reference`. -/
def SymbolTable.add_reference (t : SymbolTable) (span : Span)
    (symbol_id : Option SymbolId) : SymbolTable :=
  let reference_id := t.reference_id_to_reference.length
  let t :=
    { t with
      reference_id_to_reference := t.reference_id_to_reference ++ [⟨span, symbol_id⟩]
      span_to_reference_id := mapInsert t.span_to_reference_id span reference_id }
  match symbol_id with
  | some sid =>
    { t with symbol_id_to_references := mmapPush t.symbol_id_to_references sid reference_id }
  | none => t

/-- `SymbolTable::add_import`. -/
def SymbolTable.add_import (t : SymbolTable) (span : Span) (path : String)
    (kind : ImportKind) : SymbolId × SymbolTable :=
  let (symbol_id, t) := t.add_symbol span
  (symbol_id, { t with imports := t.imports ++ [⟨kind, path, span, symbol_id⟩] })

/-- Referential integrity of a symbol table: every key of
`symbol_id_to_references` and every reference's optional owning symbol id is
a valid index into `symbol_id_to_span`. -/
def SymbolTable.integrity (t : SymbolTable) : Prop :=
  (∀ e ∈ t.symbol_id_to_references, e.1 < t.symbol_id_to_span.length) ∧
  (∀ r ∈ t.reference_id_to_reference, ∀ sid, r.symbol_id = some sid →
    sid < t.symbol_id_to_span.length)

instance (t : SymbolTable) : Decidable t.integrity := by
  unfold SymbolTable.integrity; infer_instance

/-- One step of the public `SymbolTable` mutation API (the id returned by
`add_symbol`/`add_import` is dropped; C4 is about the table contents). -/
inductive TableOp where
  | addSymbol (span : Span)
  | addReference (span : Span) (symbol_id : Option SymbolId)
  | addImport (span : Span) (path : String) (kind : ImportKind)
  deriving DecidableEq, Repr

def applyTableOp (t : SymbolTable) : TableOp → SymbolTable
  | .addSymbol span => (t.add_symbol span).2
  | .addReference span sid => t.add_reference span sid
  | .addImport span path kind => (t.add_import span path kind).2

def applyTableOps (t : SymbolTable) (ops : List TableOp) : SymbolTable :=
  ops.foldl applyTableOp t

/-- An `add_reference` step is *valid* at table `t` when the symbol id it
passes, if any, is a live index of `t`'s arena at that moment (this is how
the analyzer calls it: the id always comes from `span_to_symbol_id` of the
same table). -/
def TableOp.validAt (t : SymbolTable) : TableOp → Prop
  | .addReference _ (some sid) => sid < t.symbol_id_to_span.length
  | _ => True

/-- Validity of every step of an operation sequence, each judged against the
table state it executes in. -/
def validOps (t : SymbolTable) : List TableOp → Prop
  | [] => True
  | op :: ops => op.validAt t ∧ validOps (applyTableOp t op) ops

/-! ## `tasks.rs`

The generation counter is an `AtomicU64`; `fetch_add(1)` wraps modulo
`2 ^ 64`, which the embedding keeps explicit. -/

inductive DocumentTaskKind where
  | Completion
  | Hover
  | Analysis
  deriving DecidableEq, Repr

structure TaskGeneration where
  generation : Nat
  deriving DecidableEq, Repr

def TaskGeneration.default : TaskGeneration := ⟨0⟩

/-- `TaskGeneration::next_token` (returns the new generation and the bumped
counter). -/
def TaskGeneration.next_token (s : TaskGeneration) : Nat × TaskGeneration :=
  let g := (s.generation + 1) % 2 ^ 64
  (g, ⟨g⟩)

def TaskGeneration.is_cancelled (s : TaskGeneration) (expected : Nat) : Bool :=
  s.generation ≠ expected

def TaskGeneration.cancel (s : TaskGeneration) : TaskGeneration :=
  ⟨(s.generation + 1) % 2 ^ 64⟩

structure DocumentTaskState where
  completion : TaskGeneration
  hover : TaskGeneration
  analysis : TaskGeneration
  deriving DecidableEq, Repr

def DocumentTaskState.default : DocumentTaskState :=
  ⟨.default, .default, .default⟩

def DocumentTaskState.slot (s : DocumentTaskState) : DocumentTaskKind → TaskGeneration
  | .Completion => s.completion
  | .Hover => s.hover
  | .Analysis => s.analysis

def DocumentTaskState.setSlot (s : DocumentTaskState) (kind : DocumentTaskKind)
    (g : TaskGeneration) : DocumentTaskState :=
  match kind with
  | .Completion => { s with completion := g }
  | .Hover => { s with hover := g }
  | .Analysis => { s with analysis := g }

structure DocumentTaskToken where
  kind : DocumentTaskKind
  generation : Nat
  deriving DecidableEq, Repr

/-- `DocumentTaskState::token` / `DocumentTaskToken::new` (returns the token
together with the updated shared state: the token and the state share the
same `TaskGeneration` slot through an `Arc` in Rust). -/
def DocumentTaskState.token (s : DocumentTaskState) (kind : DocumentTaskKind) :
    DocumentTaskToken × DocumentTaskState :=
  let (generation, slot) := (s.slot kind).next_token
  (⟨kind, generation⟩, s.setSlot kind slot)

structure DocumentTaskCancelled where
  kind : DocumentTaskKind
  deriving DecidableEq, Repr

/-- `DocumentTaskToken::is_cancelled`, reading the shared slot `s`. -/
def DocumentTaskToken.is_cancelled (t : DocumentTaskToken) (s : TaskGeneration) : Bool :=
  s.is_cancelled t.generation

/-- `DocumentTaskToken::ensure_active`. -/
def DocumentTaskToken.ensure_active (t : DocumentTaskToken) (s : TaskGeneration) :
    Except DocumentTaskCancelled Unit :=
  if t.is_cancelled s then .error ⟨t.kind⟩ else .ok ()

/-! ## `lsp.rs::HoverOffsetCache` -/

structure HoverCacheEntry where
  uri : String
  version : Option Int
  line : Nat
  column : Nat
  offset : Nat
  deriving DecidableEq, Repr

structure HoverOffsetCache where
  entries : List HoverCacheEntry
  capacity : Nat
  deriving DecidableEq, Repr

/-- `HoverOffsetCache::new`. -/
def HoverOffsetCache.new (capacity : Nat) : HoverOffsetCache := ⟨[], capacity⟩

/-- `HoverCacheEntry::matches`. -/
def HoverCacheEntry.matches (e : HoverCacheEntry) (uri : String) (version : Option Int)
    (position : Position) : Bool :=
  e.uri = uri ∧ e.version = version ∧ e.line = position.line ∧ e.column = position.character

/-- `Vec::remove` of the first entry satisfying `p` (paired with the removed
entry), mirroring `position` + `remove(idx)`. -/
def extractFirst {α : Type} (p : α → Bool) : List α → Option α × List α
  | [] => (none, [])
  | x :: xs =>
    if p x then (some x, xs)
    else
      let (r, rest) := extractFirst p xs
      (r, x :: rest)

/-- `HoverOffsetCache::lookup`: a hit moves the entry to the back
(most-recently-used) and returns its offset. -/
def HoverOffsetCache.lookup (c : HoverOffsetCache) (uri : String) (version : Option Int)
    (position : Position) : Option Nat × HoverOffsetCache :=
  match extractFirst (fun e => e.matches uri version position) c.entries with
  | (some entry, rest) => (some entry.offset, ⟨rest ++ [entry], c.capacity⟩)
  | (none, _) => (none, c)

/-- `HoverOffsetCache::insert`: evicts the front (least recently used) entry
when full, then appends.  (`entries.remove(0)` on an empty vector would panic
in Rust; it is unreachable because the server's capacity is 64, and `drop 1`
is its graceful counterpart here.) -/
def HoverOffsetCache.insert (c : HoverOffsetCache) (uri : String) (version : Option Int)
    (position : Position) (offset : Nat) : HoverOffsetCache :=
  let entries := if c.entries.length ≥ c.capacity then c.entries.drop 1 else c.entries
  ⟨entries ++ [⟨uri, version, position.line, position.character, offset⟩], c.capacity⟩

/-- `HoverOffsetCache::invalidate_uri`. -/
def HoverOffsetCache.invalidate_uri (c : HoverOffsetCache) (uri : String) :
    HoverOffsetCache :=
  ⟨c.entries.filter (fun e => e.uri ≠ uri), c.capacity⟩

/-- One step of the `HoverOffsetCache` API, for stating the boundedness
invariant over arbitrary operation sequences. -/
inductive HoverCacheOp where
  | lookup (uri : String) (version : Option Int) (position : Position)
  | insert (uri : String) (version : Option Int) (position : Position) (offset : Nat)
  | invalidate (uri : String)

def applyHoverOp (c : HoverOffsetCache) : HoverCacheOp → HoverOffsetCache
  | .lookup uri version position => (c.lookup uri version position).2
  | .insert uri version position offset => c.insert uri version position offset
  | .invalidate uri => c.invalidate_uri uri

def applyHoverOps (c : HoverOffsetCache) (ops : List HoverCacheOp) : HoverOffsetCache :=
  ops.foldl applyHoverOp c

/-! ## The candid AST (`candid_parser::syntax`)

The parsing front end is an external crate; the AST shapes below are the
ones consumed by this repository.  `IDLMergedProg::decs()` becomes the `decs`
field and `resolve_actor().ok().flatten()` becomes the `actor` field. -/

inductive PrimType where
  | Nat | Nat8 | Nat16 | Nat32 | Nat64
  | Int | Int8 | Int16 | Int32 | Int64
  | Float32 | Float64 | Bool | Text | Null | Reserved | Empty
  deriving DecidableEq, Repr

inductive FuncMode where
  | Oneway
  | Query
  | CompositeQuery
  deriving DecidableEq, Repr

/-- `candid::types::Label` (`Id`/`Unnamed` carry a `u32`). -/
inductive Label where
  | Named (name : String)
  | Id (id : Nat)
  | Unnamed (id : Nat)
  deriving DecidableEq, Repr

mutual
inductive IDLType where
  | PrimT (kind : PrimType)
  | PrincipalT
  | VarT (name : String)
  | FuncT (func : FuncType)
  | OptT (inner : IDLTypeWithSpan)
  | VecT (inner : IDLTypeWithSpan)
  | RecordT (fields : List TypeField)
  | VariantT (fields : List TypeField)
  | ServT (bindings : List Binding)
  | ClassT (args : List IDLTypeWithSpan) (ret : IDLTypeWithSpan)
  deriving Repr
inductive IDLTypeWithSpan where
  | mk (kind : IDLType) (span : Span)
  deriving Repr
inductive TypeField where
  | mk (docs : List String) (label : Label) (typ : IDLTypeWithSpan) (span : Span)
  deriving Repr
inductive Binding where
  | mk (docs : List String) (id : String) (typ : IDLTypeWithSpan) (span : Span)
  deriving Repr
inductive FuncType where
  | mk (modes : List FuncMode) (args : List IDLTypeWithSpan) (rets : List IDLTypeWithSpan)
  deriving Repr
end

def IDLTypeWithSpan.kind : IDLTypeWithSpan → IDLType
  | .mk k _ => k

def IDLTypeWithSpan.span : IDLTypeWithSpan → Span
  | .mk _ s => s

def TypeField.docs : TypeField → List String
  | .mk d _ _ _ => d

def TypeField.label : TypeField → Label
  | .mk _ l _ _ => l

def TypeField.typ : TypeField → IDLTypeWithSpan
  | .mk _ _ t _ => t

def TypeField.span : TypeField → Span
  | .mk _ _ _ s => s

def Binding.docs : Binding → List String
  | .mk d _ _ _ => d

def Binding.id : Binding → String
  | .mk _ i _ _ => i

def Binding.typ : Binding → IDLTypeWithSpan
  | .mk _ _ t _ => t

def Binding.span : Binding → Span
  | .mk _ _ _ s => s

def FuncType.modes : FuncType → List FuncMode
  | .mk m _ _ => m

def FuncType.args : FuncType → List IDLTypeWithSpan
  | .mk _ a _ => a

def FuncType.rets : FuncType → List IDLTypeWithSpan
  | .mk _ _ r => r

inductive Dec where
  | TypD (binding : Binding)
  | ImportType (path : String) (span : Span)
  | ImportServ (path : String) (span : Span)
  deriving Repr

structure IDLActorType where
  typ : IDLTypeWithSpan
  span : Span
  docs : List String
  deriving Repr

/-- `IDLMergedProg`: `decs` models `decs()`, `actor` models
`resolve_actor().ok().flatten()`. -/
structure IDLMergedProg where
  decs : List Dec
  actor : Option IDLActorType
  deriving Repr

/-! ## `type_docs.rs::KeywordDoc` (the keyword inventory and its tokens) -/

inductive KeywordDoc where
  | Func | Opt | Principal | Record | Service | Type | Variant | Vec
  | Oneway | Query | CompositeQuery | Import
  deriving DecidableEq, Repr

/-- `KeywordDoc::keyword`. -/
def KeywordDoc.keyword : KeywordDoc → List Char
  | .Func => "func".data
  | .Opt => "opt".data
  | .Principal => "principal".data
  | .Record => "record".data
  | .Service => "service".data
  | .Type => "type".data
  | .Variant => "variant".data
  | .Vec => "vec".data
  | .Oneway => "oneway".data
  | .Query => "query".data
  | .CompositeQuery => "composite_query".data
  | .Import => "import".data

/-! ## `semantic_analyze.rs`: data types -/

abbrev FieldId := Nat
abbrev MethodId := Nat
abbrev ParamId := Nat

inductive FieldPart where
  | Label
  | Type
  deriving DecidableEq, Repr

inductive ParamRole where
  | Argument
  | Result
  deriving DecidableEq, Repr

inductive PrimitiveHover where
  | Prim (kind : PrimType)
  | Blob
  deriving DecidableEq, Repr

inductive IdentType where
  | Binding (id : SymbolId)
  | Reference (id : ReferenceId)
  | Field (id : FieldId) (part : FieldPart)
  | ServiceMethod (id : MethodId)
  | FuncParam (id : ParamId)
  | Primitive (kind : PrimitiveHover)
  | Keyword (kw : KeywordDoc)
  | Actor
  deriving DecidableEq, Repr

inductive SemanticError where
  | UndefinedVariable (name : String) (span : Span)
  | ImConsistentArrayType (expect_ty : String) (actual_ty : String) (span : Span)
  deriving DecidableEq, Repr

/-- `SemanticError::span`. -/
def SemanticError.span : SemanticError → Span
  | .UndefinedVariable _ span => span
  | .ImConsistentArrayType _ _ span => span

/-- The `thiserror` `Display` message of a `SemanticError`. -/
def SemanticError.message : SemanticError → String
  | .UndefinedVariable name _ => "Undefined variable " ++ name
  | .ImConsistentArrayType expect_ty actual_ty _ =>
    "Expect element type: " ++ expect_ty ++ ", but got " ++ actual_ty

structure MethodSignature where
  args : List String
  rets : List String
  modes : List FuncMode
  deriving DecidableEq, Repr

structure FieldMetadata where
  span : Span
  label_span : Option Span
  type_span : Option Span
  docs : Option String
  parent_name : Option String
  label : Option String
  deriving DecidableEq, Repr

structure MethodMetadata where
  span : Span
  name_span : Option Span
  type_span : Option Span
  docs : Option String
  parent_name : Option String
  signature : Option MethodSignature
  deriving DecidableEq, Repr

structure ParamMetadata where
  span : Span
  name_span : Option Span
  type_span : Span
  role : ParamRole
  deriving DecidableEq, Repr

structure LocalBinding where
  name : String
  span : Span
  scope : Span
  is_definition : Bool
  deriving DecidableEq, Repr

structure ActorMetadata where
  span : Span
  name_span : Option Span
  docs : Option String
  definition : Option String
  deriving DecidableEq, Repr

structure TypeDoc where
  definition : String
  docs : Option String
  deriving DecidableEq, Repr

/-- A `rust_lapper::Interval` tagged with an `IdentType`. -/
structure Interval where
  start : Nat
  stop : Nat
  val : IdentType
  deriving DecidableEq, Repr

/-- The interval index.  `Lapper::insert` keeps its vector sorted by start
position; only `find` (all intervals overlapping a query range) is ever
observed, and the lookup theorems hold for every ordering, so insertion is
modelled as appending. -/
abbrev IdentRangeLapper := List Interval

def IdentRangeLapper.insert (l : IdentRangeLapper) (iv : Interval) : IdentRangeLapper :=
  l ++ [iv]

/-- `rust_lapper` `find(start, stop)` membership: an interval overlaps the
query range `[offset, offset+1)` iff it contains `offset`. -/
def Interval.coversAt (iv : Interval) (offset : Nat) : Bool :=
  iv.start ≤ offset ∧ offset < iv.stop

structure Semantic where
  table : SymbolTable
  ident_range : IdentRangeLapper
  fields : List FieldMetadata
  service_methods : List MethodMetadata
  params : List ParamMetadata
  locals : List LocalBinding
  symbol_ident_spans : List (Option Span)
  symbol_ident_names : List (Option String)
  type_docs : List (Option TypeDoc)
  primitive_spans : List (Span × PrimitiveHover)
  keyword_spans : List (Span × KeywordDoc)
  actor : Option ActorMetadata
  deriving DecidableEq, Repr

/-- The pretty-printers of `type_display.rs`.  They only produce display
strings (definitions, hover signatures); no claim depends on the rendered
text, so they are taken as parameters of the analyzer. -/
structure Renderers where
  render_binding : Binding → String
  render_inline_type : IDLTypeWithSpan → String
  render_actor_declaration : Option String → IDLTypeWithSpan → Option String

/-! ## `semantic_analyze.rs`: free helper functions -/

/-- The text of a span of the document. -/
def spanSlice (rope : Rope) (s : Span) : List Char :=
  Text.sliceChars rope s.start s.stop

/-- `find_identifier_span`. -/
def find_identifier_span (rope : Rope) (span : Span) (needle : List Char)
    (from_end : Bool) : Option Span :=
  if needle.isEmpty ∨ span.start ≥ span.stop then none
  else
    let text := Text.sliceChars rope span.start span.stop
    match (if from_end then Text.rfindSub? text needle else Text.findSub? text needle) with
    | none => none
    | some idx =>
      let start := span.start + idx
      some ⟨start, start + needle.length⟩

/-- `find_char_in_span`. -/
def find_char_in_span (rope : Rope) (span : Span) (ch : Char) : Option Nat :=
  if span.start ≥ span.stop then none
  else
    match Text.findSub? (Text.sliceChars rope span.start span.stop) [ch] with
    | none => none
    | some char_offset => some (span.start + char_offset)

/-- `args_region_start`. -/
def args_region_start (rope : Rope) (span : Span) : Nat :=
  match find_char_in_span rope span '(' with
  | some pos => pos + 1
  | none => span.start

/-- `compute_param_name_span`. -/
def compute_param_name_span (rope : Rope) (search_span : Span) : Option Span :=
  if search_span.start ≥ search_span.stop then none
  else
    let text := Text.sliceChars rope search_span.start search_span.stop
    match Text.rfindSub? text [':'] with
    | none => none
    | some colon_idx =>
      let before := text.take colon_idx
      let candidate := Text.afterLastDelim before ['(', ',']
      let name := Text.trim candidate
      if name.isEmpty then none
      else find_identifier_span rope search_span name true

/-- `span_text_eq`. -/
def span_text_eq (rope : Rope) (span : Span) (needle : List Char) : Bool :=
  if span.start ≥ span.stop then false
  else Text.trim (spanSlice rope span) = needle

/-- `is_blob`. -/
def is_blob (span : Span) (rope : Rope) : Bool :=
  span_text_eq rope span "blob".data

/-- `compute_binding_ident_span`. -/
def compute_binding_ident_span (binding : Binding) (rope : Rope) : Option Span :=
  if binding.id.isEmpty then none
  else
    let start := binding.span.start
    let stop := binding.typ.span.start
    let stop := if stop ≤ start then binding.span.stop else stop
    if stop ≤ start then none
    else find_identifier_span rope ⟨start, stop⟩ binding.id.data true

/-- `field_label_name`. -/
def field_label_name (field : TypeField) : Option String :=
  match field.label with
  | .Named name => some name
  | .Id id => some (toString id)
  | .Unnamed id => some (toString id)

/-- `compute_field_label_span`. -/
def compute_field_label_span (field : TypeField) (rope : Rope) : Option Span :=
  let label_text :=
    match field.label with
    | .Named name => name
    | .Id id => toString id
    | .Unnamed id => toString id
  if label_text.isEmpty then none
  else
    let start := field.span.start
    let stop := field.typ.span.start
    let stop := if stop ≤ start then field.span.stop else stop
    if stop ≤ start then none
    else find_identifier_span rope ⟨start, stop⟩ label_text.data true

/-- `compute_actor_name_span`. -/
def compute_actor_name_span (actor : IDLActorType) (rope : Rope) : Option Span :=
  match find_char_in_span rope actor.span ':' with
  | none => none
  | some colon_pos =>
    let search_span : Span := ⟨actor.span.start, colon_pos⟩
    let text := spanSlice rope search_span
    let trimmed := Text.trimStart text
    match Text.stripLeading? trimmed "service".data with
    | none => none
    | some rest =>
      let without_keyword := Text.trimStart rest
      if without_keyword.isEmpty then none
      else
        let name := Text.firstWord without_keyword
        if name.isEmpty then none
        else find_identifier_span rope search_span name false

/-- `primitive_keyword`. -/
def primitive_keyword : PrimType → List Char
  | .Nat => "nat".data
  | .Nat8 => "nat8".data
  | .Nat16 => "nat16".data
  | .Nat32 => "nat32".data
  | .Nat64 => "nat64".data
  | .Int => "int".data
  | .Int8 => "int8".data
  | .Int16 => "int16".data
  | .Int32 => "int32".data
  | .Int64 => "int64".data
  | .Float32 => "float32".data
  | .Float64 => "float64".data
  | .Bool => "bool".data
  | .Text => "text".data
  | .Null => "null".data
  | .Reserved => "reserved".data
  | .Empty => "empty".data

/-- `'\x60'` (the backquote), used by the code-fence annotator. -/
def backquoteChar : Char := Char.ofNat 96

/-- `annotate_code_fences` (the source walks bytes but only ever matches the
ASCII sequences "\x60\x60\x60", `'\n'` and `'\r'`, so the char-level walk
coincides). -/
def annotate_code_fences : List Char → Bool → List Char
  | [], _ => []
  | c :: rest, in_code =>
    if c = backquoteChar ∧ rest.take 2 = [backquoteChar, backquoteChar] then
      [backquoteChar, backquoteChar, backquoteChar] ++
        (if ¬ in_code then "candid".data ++ annotate_code_fences (rest.drop 2) true
         else annotate_code_fences (rest.drop 2) false)
    else if c = '\n' then
      (if in_code then ['\n'] else "  \n".data) ++ annotate_code_fences rest in_code
    else if c = '\r' then
      (if in_code then ['\r'] else "  \r".data) ++ annotate_code_fences rest in_code
    else c :: annotate_code_fences rest in_code
termination_by l _ => l.length
decreasing_by
  all_goals simp [List.length_drop]
  all_goals omega

/-- Rust `str::trim_start_matches('/')`. -/
def trimStartSlashes (s : List Char) : List Char := s.dropWhile (fun c => c = '/')

/-- `format_docs`. -/
def format_docs (docs : List String) : Option String :=
  if docs.isEmpty then none
  else
    let lines := docs.filterMap (fun doc =>
      let trimmed := Text.trim (trimStartSlashes (Text.trim doc.data))
      if trimmed.isEmpty then none else some trimmed)
    if lines.isEmpty then none
    else some (String.mk (annotate_code_fences (List.intercalate ['\n'] lines) false))

/-- `collapse_whitespace`. -/
def collapse_whitespace (text : List Char) : List Char :=
  List.intercalate [' '] (text.splitOnP Text.isWs |>.filter (fun w => ¬ w.isEmpty))

/-- `flatten_type_text` (parameterised by the renderer). -/
def flatten_type_text (R : Renderers) (ty : IDLTypeWithSpan) : String :=
  String.mk (collapse_whitespace (R.render_inline_type ty).data)

/-- `MethodSignature::from_func`. -/
def MethodSignature.from_func (R : Renderers) (func : FuncType) : MethodSignature :=
  ⟨func.args.map (flatten_type_text R), func.rets.map (flatten_type_text R), func.modes⟩

/-! ## `semantic_analyze.rs`: the analysis context and its operations -/

structure Ctx where
  env : List (String × Span)
  table : SymbolTable
  fields : List FieldMetadata
  service_methods : List MethodMetadata
  params : List ParamMetadata
  locals : List LocalBinding
  rope : Rope
  symbol_ident_spans : List (Option Span)
  symbol_ident_names : List (Option String)
  type_docs : List (Option TypeDoc)
  primitive_spans : List (Span × PrimitiveHover)
  keyword_spans : List (Span × KeywordDoc)
  actor : Option ActorMetadata
  type_name_stack : List (Option String)
  scope_stack : List Span

/-- `Ctx::find_symbol` (`im_rc::Vector::iter().rev().find_map`: the most
recent declaration of the name wins). -/
def Ctx.find_symbol (ctx : Ctx) (name : String) : Option Span :=
  (ctx.env.reverse.find? (fun e => decide (e.1 = name))).map (fun e => e.2)

def Ctx.push_type_name (ctx : Ctx) (name : Option String) : Ctx :=
  { ctx with type_name_stack := ctx.type_name_stack ++ [name] }

def Ctx.pop_type_name (ctx : Ctx) : Ctx :=
  { ctx with type_name_stack := ctx.type_name_stack.dropLast }

def Ctx.current_type_name (ctx : Ctx) : Option String :=
  ctx.type_name_stack.reverse.findSome? id

def Ctx.push_scope (ctx : Ctx) (span : Span) : Ctx :=
  { ctx with scope_stack := ctx.scope_stack ++ [span] }

def Ctx.pop_scope (ctx : Ctx) : Ctx :=
  { ctx with scope_stack := ctx.scope_stack.dropLast }

def Ctx.current_scope (ctx : Ctx) : Option Span :=
  ctx.scope_stack.getLast?

/-- `Ctx::register_symbol_slot`. -/
def Ctx.register_symbol_slot (ctx : Ctx) : Ctx :=
  { ctx with
    symbol_ident_spans := ctx.symbol_ident_spans ++ [none]
    symbol_ident_names := ctx.symbol_ident_names ++ [none]
    type_docs := ctx.type_docs ++ [none] }

/-- `Ctx::declare_symbol` (`List.set` is a no-op out of range, matching the
`get_mut` guard). -/
def Ctx.declare_symbol (ctx : Ctx) (name : String) (span : Span) : SymbolId × Ctx :=
  let (symbol_id, table) := ctx.table.add_symbol span
  let ctx := { ctx with table := table }
  let ctx := ctx.register_symbol_slot
  let ctx := { ctx with symbol_ident_names := ctx.symbol_ident_names.set symbol_id (some name) }
  (symbol_id, { ctx with env := ctx.env ++ [(name, span)] })

/-- `Ctx::register_field`. -/
def Ctx.register_field (ctx : Ctx) (field : TypeField) : Ctx :=
  let label_span := compute_field_label_span field ctx.rope
  let type_span :=
    if field.typ.span.start < field.typ.span.stop then some field.typ.span else none
  let label_text :=
    match label_span.map (fun span => String.mk (spanSlice ctx.rope span)) with
    | some t => some t
    | none => field_label_name field
  let metadata : FieldMetadata :=
    ⟨field.span, label_span, type_span, format_docs field.docs, ctx.current_type_name,
      label_text⟩
  let ctx := { ctx with fields := ctx.fields ++ [metadata] }
  match ctx.current_scope, label_span, field_label_name field with
  | some scope, some label_span, some label_name =>
    { ctx with locals := ctx.locals ++ [⟨label_name, label_span, scope, false⟩] }
  | _, _, _ => ctx

/-- `Ctx::register_service_method`. -/
def Ctx.register_service_method (R : Renderers) (ctx : Ctx) (binding : Binding)
    (parent_name : Option String) : Ctx :=
  let name_span := compute_binding_ident_span binding ctx.rope
  let type_span :=
    if binding.typ.span.start < binding.typ.span.stop then some binding.typ.span else none
  let signature :=
    match binding.typ.kind with
    | .FuncT func => some (MethodSignature.from_func R func)
    | _ => none
  let metadata : MethodMetadata :=
    ⟨binding.span, name_span, type_span, format_docs binding.docs, parent_name, signature⟩
  { ctx with service_methods := ctx.service_methods ++ [metadata] }

/-- `Ctx::register_function_params`. -/
def Ctx.register_function_params (ctx : Ctx) (func_type : FuncType) (func_span : Span) :
    Ctx :=
  let cursor := args_region_start ctx.rope func_span
  (func_type.args.foldl
    (fun (acc : Nat × Ctx) arg =>
      let (cursor, ctx) := acc
      let cursor := if cursor > arg.span.start then arg.span.start else cursor
      let search_span : Span := ⟨cursor, arg.span.start⟩
      let name_span := compute_param_name_span ctx.rope search_span
      let span_start := (name_span.map (fun span => span.start)).getD arg.span.start
      let span : Span := ⟨span_start, arg.span.stop⟩
      let metadata : ParamMetadata := ⟨span, name_span, arg.span, .Argument⟩
      let ctx :=
        match name_span with
        | some ns =>
          { ctx with
            locals := ctx.locals ++
              [(⟨String.mk (spanSlice ctx.rope ns), ns, func_span, true⟩ : LocalBinding)] }
        | none => ctx
      let ctx := { ctx with params := ctx.params ++ [metadata] }
      (arg.span.stop, ctx))
    (cursor, ctx)).2

/-- `Ctx::register_primitive`. -/
def Ctx.register_primitive (ctx : Ctx) (span : Span) (kind : PrimType) : Ctx :=
  if span.start ≥ span.stop then ctx
  else
    match find_identifier_span ctx.rope span (primitive_keyword kind) false with
    | some prim_span =>
      { ctx with primitive_spans := ctx.primitive_spans ++ [(prim_span, .Prim kind)] }
    | none => ctx

/-- `Ctx::register_blob`. -/
def Ctx.register_blob (ctx : Ctx) (span : Span) : Ctx :=
  if span.start ≥ span.stop then ctx
  else
    match find_identifier_span ctx.rope span "blob".data false with
    | some blob_span =>
      { ctx with primitive_spans := ctx.primitive_spans ++ [(blob_span, .Blob)] }
    | none => ctx

/-- `Ctx::register_keyword_within`. -/
def Ctx.register_keyword_within (ctx : Ctx) (span : Span) (keyword : KeywordDoc)
    (from_end : Bool) : Ctx :=
  if span.start ≥ span.stop then ctx
  else
    match find_identifier_span ctx.rope span keyword.keyword from_end with
    | some keyword_span =>
      { ctx with keyword_spans := ctx.keyword_spans ++ [(keyword_span, keyword)] }
    | none => ctx

/-- `Ctx::register_keyword`. -/
def Ctx.register_keyword (ctx : Ctx) (span : Span) (keyword : KeywordDoc) : Ctx :=
  ctx.register_keyword_within span keyword false

/-- `Ctx::register_keyword_from_end`. -/
def Ctx.register_keyword_from_end (ctx : Ctx) (span : Span) (keyword : KeywordDoc) : Ctx :=
  ctx.register_keyword_within span keyword true

/-- `Ctx::register_import_keyword`. -/
def Ctx.register_import_keyword (ctx : Ctx) (span : Span) (path : String) : Ctx :=
  let direct :=
    if span.start < span.stop then
      let line_idx := RopeOps.charToLine ctx.rope span.start
      let line_start := RopeOps.lineToChar ctx.rope line_idx
      let line_stop := line_start + (RopeOps.lineSlice ctx.rope line_idx).length
      find_identifier_span ctx.rope ⟨line_start, line_stop⟩ KeywordDoc.Import.keyword false
    else none
  match direct with
  | some keyword_span =>
    { ctx with keyword_spans := ctx.keyword_spans ++ [(keyword_span, .Import)] }
  | none =>
    let needle := path.data
    let quoted := quoteChar :: path.data ++ [quoteChar]
    match (List.range (RopeOps.lenLines ctx.rope)).find? (fun line_idx =>
        let line := RopeOps.lineSlice ctx.rope line_idx
        Text.containsSub line "import".data ∧
          (Text.containsSub line needle ∨ Text.containsSub line quoted)) with
    | some line_idx =>
      let line := RopeOps.lineSlice ctx.rope line_idx
      match Text.findSub? line "import".data with
      | some idx =>
        let line_start := RopeOps.lineToChar ctx.rope line_idx
        let start := line_start + idx
        { ctx with
          keyword_spans := ctx.keyword_spans ++ [(⟨start, start + 6⟩, .Import)] }
      | none => ctx
    | none => ctx

/-- `Ctx::register_import_keywords_from_text`. -/
def Ctx.register_import_keywords_from_text (ctx : Ctx) : Ctx :=
  let needle := KeywordDoc.Import.keyword
  (List.range (RopeOps.lenLines ctx.rope)).foldl
    (fun ctx line_idx =>
      let line_text := RopeOps.lineSlice ctx.rope line_idx
      let trimmed := Text.trimStart line_text
      if ¬ Text.startsWith trimmed needle then ctx
      else
        let after := (trimmed.drop needle.length).head?
        if (match after with
            | some next => ¬ (Text.isWs next ∨ next = quoteChar)
            | none => False : Bool) then ctx
        else
          let leading_chars := line_text.length - trimmed.length
          let line_start := RopeOps.lineToChar ctx.rope line_idx
          let start := line_start + leading_chars
          let span : Span := ⟨start, start + needle.length⟩
          if ctx.keyword_spans.any (fun e => e.2 = KeywordDoc.Import ∧ e.1 = span) then ctx
          else { ctx with keyword_spans := ctx.keyword_spans ++ [(span, .Import)] })
    ctx

/-! ## `semantic_analyze.rs`: the recursive walk -/

mutual
/-- `analyze_type` (threading the mutable `Ctx`; `?` short-circuiting becomes
an explicit match on `Except`). -/
def analyze_type (R : Renderers) : IDLTypeWithSpan → Ctx → Except SemanticError Ctx
  | .mk (.PrimT kind) span, ctx => .ok (ctx.register_primitive span kind)
  | .mk .PrincipalT span, ctx => .ok (ctx.register_keyword span .Principal)
  | .mk (.VarT name) span, ctx =>
    match ctx.find_symbol name with
    | none => .error (.UndefinedVariable name span)
    | some decl_span =>
      match mapGet? ctx.table.span_to_symbol_id decl_span with
      | some symbol_id =>
        .ok { ctx with table := ctx.table.add_reference span (some symbol_id) }
      | none => .ok ctx
  | .mk (.FuncT (.mk modes args rets)) span, ctx =>
    let ctx := ctx.register_keyword span .Func
    let ctx := ctx.register_function_params (.mk modes args rets) span
    let ctx := modes.foldl
      (fun ctx mode =>
        match mode with
        | .Query => ctx.register_keyword_from_end span .Query
        | .CompositeQuery => ctx.register_keyword_from_end span .CompositeQuery
        | .Oneway => ctx.register_keyword_from_end span .Oneway)
      ctx
    match analyze_type_list R args ctx with
    | .error e => .error e
    | .ok ctx => analyze_type_list R rets ctx
  | .mk (.OptT inner) span, ctx => analyze_type R inner (ctx.register_keyword span .Opt)
  | .mk (.VecT inner) span, ctx =>
    let ctx :=
      if is_blob span ctx.rope then ctx.register_blob span
      else ctx.register_keyword span .Vec
    analyze_type R inner ctx
  | .mk (.RecordT type_fields) span, ctx =>
    let ctx := (ctx.register_keyword span .Record).push_scope span
    match analyze_type_fields R type_fields ctx with
    | .error e => .error e
    | .ok ctx => .ok ctx.pop_scope
  | .mk (.VariantT type_fields) span, ctx =>
    let ctx := (ctx.register_keyword span .Variant).push_scope span
    match analyze_type_fields R type_fields ctx with
    | .error e => .error e
    | .ok ctx => .ok ctx.pop_scope
  | .mk (.ServT bindings) span, ctx =>
    let ctx := ctx.register_keyword span .Service
    analyze_serv_bindings R ctx.current_type_name bindings ctx
  | .mk (.ClassT args ret) _, ctx =>
    match analyze_type_list R args ctx with
    | .error e => .error e
    | .ok ctx => analyze_type R ret ctx

/-- `analyze_binding`. -/
def analyze_binding (R : Renderers) : Binding → Ctx → Except SemanticError Ctx
  | .mk _ _ typ _, ctx => analyze_type R typ ctx

/-- The `for arg in ...`/`for ret in ...` loops of `analyze_type`. -/
def analyze_type_list (R : Renderers) :
    List IDLTypeWithSpan → Ctx → Except SemanticError Ctx
  | [], ctx => .ok ctx
  | t :: ts, ctx =>
    match analyze_type R t ctx with
    | .error e => .error e
    | .ok ctx => analyze_type_list R ts ctx

/-- `analyze_type_fields`. -/
def analyze_type_fields (R : Renderers) :
    List TypeField → Ctx → Except SemanticError Ctx
  | [], ctx => .ok ctx
  | .mk docs label typ span :: rest, ctx =>
    let ctx := ctx.register_field (.mk docs label typ span)
    match analyze_type R typ ctx with
    | .error e => .error e
    | .ok ctx => analyze_type_fields R rest ctx

/-- The `for binding in bindings` loop of the `ServT` branch
(`register_service_method` then `analyze_binding` per binding). -/
def analyze_serv_bindings (R : Renderers) (parent_name : Option String) :
    List Binding → Ctx → Except SemanticError Ctx
  | [], ctx => .ok ctx
  | .mk docs id typ span :: rest, ctx =>
    let ctx := Ctx.register_service_method R ctx (.mk docs id typ span) parent_name
    match analyze_type R typ ctx with
    | .error e => .error e
    | .ok ctx => analyze_serv_bindings R parent_name rest ctx
end

/-- `analyze_dec`. -/
def analyze_dec (R : Renderers) (dec : Dec) (ctx : Ctx) : Except SemanticError Ctx :=
  match dec with
  | .TypD binding =>
    let ctx := ctx.push_type_name (some binding.id)
    match analyze_binding R binding ctx with
    | .ok ctx => .ok ctx.pop_type_name
    | .error e => .error e
  | .ImportType _ _ => .ok ctx
  | .ImportServ _ _ => .ok ctx

/-- The second `for dec in ast.decs()` loop of `analyze_program`. -/
def analyze_decs (R : Renderers) : List Dec → Ctx → Except SemanticError Ctx
  | [], ctx => .ok ctx
  | dec :: rest, ctx =>
    match analyze_dec R dec ctx with
    | .error e => .error e
    | .ok ctx => analyze_decs R rest ctx

/-- `analyze_actor`. -/
def analyze_actor (R : Renderers) (actor : IDLActorType) (ctx : Ctx) :
    Except SemanticError Ctx :=
  let ctx := ctx.register_keyword actor.span .Service
  let docs := format_docs actor.docs
  let name_span := compute_actor_name_span actor ctx.rope
  let name_text := name_span.map (fun span => String.mk (spanSlice ctx.rope span))
  let definition := R.render_actor_declaration name_text actor.typ
  let ctx := { ctx with actor := some ⟨actor.span, name_span, docs, definition⟩ }
  let ctx := ctx.push_type_name name_text
  match analyze_type R actor.typ ctx with
  | .ok ctx => .ok ctx.pop_type_name
  | .error e => .error e

/-- One step of the first (hoisting) `for dec in ast.decs()` loop of
`analyze_program`. -/
def hoist_dec (R : Renderers) (ctx : Ctx) (dec : Dec) : Ctx :=
  match dec with
  | .TypD binding =>
    let ctx := ctx.register_keyword binding.span .Type
    let (symbol_id, ctx) := ctx.declare_symbol binding.id binding.span
    let ctx :=
      match compute_binding_ident_span binding ctx.rope with
      | some ident_span =>
        { ctx with
          symbol_ident_spans := ctx.symbol_ident_spans.set symbol_id (some ident_span) }
      | none => ctx
    { ctx with
      type_docs :=
        ctx.type_docs.set symbol_id
          (some ⟨R.render_binding binding, format_docs binding.docs⟩) }
  | .ImportType path span =>
    let ctx := { ctx with table := (ctx.table.add_import span path .Type).2 }
    (ctx.register_import_keyword span path).register_symbol_slot
  | .ImportServ path span =>
    let ctx := { ctx with table := (ctx.table.add_import span path .Service).2 }
    (ctx.register_import_keyword span path).register_symbol_slot

/-- The interval-index construction at the end of `analyze_program`. -/
def build_ident_range (ctx : Ctx) : IdentRangeLapper :=
  let ir : IdentRangeLapper := []
  let ir := ctx.table.symbol_id_to_span.enum.foldl
    (fun ir (p : Nat × Span) =>
      let span := ((ctx.symbol_ident_spans[p.1]?).join).getD p.2
      ir.insert ⟨span.start, span.stop, .Binding p.1⟩)
    ir
  let ir := ctx.table.reference_id_to_reference.enum.foldl
    (fun ir (p : Nat × Reference) =>
      ir.insert ⟨p.2.span.start, p.2.span.stop, .Reference p.1⟩)
    ir
  let ir := ctx.fields.enum.foldl
    (fun ir (p : Nat × FieldMetadata) =>
      let ir :=
        match p.2.label_span with
        | some label_span => ir.insert ⟨label_span.start, label_span.stop, .Field p.1 .Label⟩
        | none => ir
      match p.2.type_span with
      | some type_span =>
        if type_span.start < type_span.stop ∧ p.2.label_span ≠ some type_span then
          ir.insert ⟨type_span.start, type_span.stop, .Field p.1 .Type⟩
        else ir
      | none => ir)
    ir
  let ir := ctx.service_methods.enum.foldl
    (fun ir (p : Nat × MethodMetadata) =>
      match p.2.name_span with
      | some name_span => ir.insert ⟨name_span.start, name_span.stop, .ServiceMethod p.1⟩
      | none => ir)
    ir
  let ir := ctx.params.enum.foldl
    (fun ir (p : Nat × ParamMetadata) =>
      match p.2.name_span with
      | some name_span => ir.insert ⟨name_span.start, name_span.stop, .FuncParam p.1⟩
      | none => ir)
    ir
  let ir := ctx.primitive_spans.foldl
    (fun ir (p : Span × PrimitiveHover) =>
      if p.1.start < p.1.stop then ir.insert ⟨p.1.start, p.1.stop, .Primitive p.2⟩ else ir)
    ir
  let ir := ctx.keyword_spans.foldl
    (fun ir (p : Span × KeywordDoc) =>
      if p.1.start < p.1.stop then ir.insert ⟨p.1.start, p.1.stop, .Keyword p.2⟩ else ir)
    ir
  match ctx.actor with
  | some actor =>
    match actor.name_span with
    | some name_span =>
      if name_span.start < name_span.stop then
        ir.insert ⟨name_span.start, name_span.stop, .Actor⟩
      else ir
    | none => ir
  | none => ir

/-- The empty analysis context `analyze_program` starts from. -/
def Ctx.init (rope : Rope) : Ctx :=
  ⟨[], .default, [], [], [], [], rope, [], [], [], [], [], none, [], []⟩

/-- `analyze_program`. -/
def analyze_program (R : Renderers) (ast : IDLMergedProg) (rope : Rope) :
    Except SemanticError Semantic :=
  let ctx := ast.decs.foldl (hoist_dec R) (Ctx.init rope)
  match analyze_decs R ast.decs ctx with
  | .error e => .error e
  | .ok ctx =>
    match
      (match ast.actor with
        | some actor => analyze_actor R actor ctx
        | none => .ok ctx) with
    | .error e => .error e
    | .ok ctx =>
      let ctx := ctx.register_import_keywords_from_text
      .ok
        ⟨ctx.table, build_ident_range ctx, ctx.fields, ctx.service_methods, ctx.params,
          ctx.locals, ctx.symbol_ident_spans, ctx.symbol_ident_names, ctx.type_docs,
          ctx.primitive_spans, ctx.keyword_spans, ctx.actor⟩

/-! ## `navigation.rs`: identifier lookup -/

/-- `ident_priority` (a `u8`). -/
def ident_priority : IdentType → Nat
  | .Reference _ => 5
  | .Primitive _ => 4
  | .Keyword _ => 4
  | .Actor => 3
  | .Field _ .Label => 3
  | .ServiceMethod _ => 3
  | .FuncParam _ => 3
  | .Field _ .Type => 2
  | .Binding _ => 1

/-- The `best` accumulator of `lookup_identifier`'s selection loop: the tuple
`(priority, span_len, IdentType, Span)`. -/
structure BestEntry where
  priority : Nat
  span_len : Nat
  val : IdentType
  span : Span
  deriving DecidableEq, Repr

/-- One iteration of `lookup_identifier`'s selection loop
(`navigation.rs:64-83`). -/
def lookup_identifier_step (best : Option BestEntry) (interval : Interval) :
    Option BestEntry :=
  let priority := ident_priority interval.val
  let span_len := interval.stop - interval.start
  let replace : Bool :=
    match best with
    | some b => priority > b.priority ∨ (priority = b.priority ∧ span_len < b.span_len)
    | none => true
  if replace then some ⟨priority, span_len, interval.val, ⟨interval.start, interval.stop⟩⟩
  else best

/-- The selection loop of `lookup_identifier` run over an explicit interval
list: `find(offset, offset + 1)` keeps the intervals containing `offset`, and
the loop folds `lookup_identifier_step` over them.  The remainder of
`lookup_identifier` only reconstitutes metadata from the winning interval. -/
def lookup_identifier_best_in (intervals : List Interval) (offset : Nat) :
    Option BestEntry :=
  (intervals.filter (fun iv => iv.coversAt offset)).foldl lookup_identifier_step none

/-- The winning interval selected by `lookup_identifier` on a `Semantic`. -/
def lookup_identifier_best (semantic : Semantic) (offset : Nat) : Option BestEntry :=
  lookup_identifier_best_in semantic.ident_range offset

/-! ## `completion.rs`: document cache and context classifier -/

inductive CompletionContext where
  | Unknown
  | Type
  | Value
  | Definition
  | TopLevel
  | Comment
  deriving DecidableEq, Repr

/-- `CompletionDocumentCache` (the two `OnceCell` fields holding the lazily
memoised span lists and scope index carry no information at build time and
are not needed by the freshness logic, which reads only `version`). -/
structure CompletionDocumentCache where
  has_ast : Bool
  has_semantic : Bool
  version : Option Int
  deriving DecidableEq, Repr

/-- `CompletionDocumentCache::build`. -/
def CompletionDocumentCache.build (ast : Option IDLMergedProg) (semantic : Option Semantic)
    (version : Option Int) : Option CompletionDocumentCache :=
  let has_ast := ast.isSome
  let has_semantic := semantic.isSome
  if ¬ has_ast ∧ ¬ has_semantic then none
  else some ⟨has_ast, has_semantic, version⟩

/-- `CompletionDocumentCache::is_fresh`. -/
def CompletionDocumentCache.is_fresh (cache : CompletionDocumentCache)
    (version : Option Int) : Bool :=
  match cache.version, version with
  | some expected, some actual => expected = actual
  | some _, none => false
  | _, _ => true

structure CursorScanState where
  depth : Nat
  in_line_comment : Bool
  in_block_comment : Bool
  in_string : Bool
  deriving DecidableEq, Repr

def CursorScanState.default : CursorScanState := ⟨0, false, false, false⟩

/-- `CursorScanState::is_top_level`. -/
def CursorScanState.is_top_level (s : CursorScanState) : Bool :=
  s.depth = 0 ∧ ¬ s.in_block_comment ∧ ¬ s.in_string ∧ ¬ s.in_line_comment

/-- `CursorScanState::in_comment`. -/
def CursorScanState.in_comment (s : CursorScanState) : Bool :=
  s.in_block_comment ∨ s.in_line_comment

/-- The character automaton of `cursor_scan_state_from_text` (the `escape`
flag is threaded explicitly; it is only ever consulted inside a string). -/
def cursor_scan_go : List Char → CursorScanState → Bool → CursorScanState
  | [], state, _ => state
  | ch :: rest, state, escape =>
    if state.in_string then
      if escape then cursor_scan_go rest state false
      else if ch = '\\' then cursor_scan_go rest state true
      else if ch = quoteChar then cursor_scan_go rest { state with in_string := false } false
      else cursor_scan_go rest state false
    else if state.in_line_comment then
      cursor_scan_go rest
        (if ch = '\n' then { state with in_line_comment := false } else state) false
    else if state.in_block_comment then
      match rest with
      | c2 :: rest2 =>
        if ch = '*' ∧ c2 = '/' then
          cursor_scan_go rest2 { state with in_block_comment := false } false
        else cursor_scan_go (c2 :: rest2) state false
      | [] => cursor_scan_go [] state false
    else if ch = quoteChar then cursor_scan_go rest { state with in_string := true } false
    else if ch = '/' then
      match rest with
      | c2 :: rest2 =>
        if c2 = '/' then cursor_scan_go rest2 { state with in_line_comment := true } false
        else if c2 = '*' then
          cursor_scan_go rest2 { state with in_block_comment := true } false
        else cursor_scan_go (c2 :: rest2) state false
      | [] => cursor_scan_go [] state false
    else if ch = braceOpen then
      cursor_scan_go rest { state with depth := state.depth + 1 } false
    else if ch = braceClose then
      cursor_scan_go rest
        (if state.depth > 0 then { state with depth := state.depth - 1 } else state) false
    else cursor_scan_go rest state false

/-- `cursor_scan_state_from_text`. -/
def cursor_scan_state_from_text (text : List Char) : CursorScanState :=
  if text.isEmpty then .default else cursor_scan_go text .default false

/-- `inside_record_variant_block_from_text`. -/
def inside_record_variant_block_from_text (text : List Char) : Bool :=
  if text.isEmpty then false
  else
    match Text.rfindSub? text [braceOpen] with
    | none => false
    | some open_pos =>
      if Text.containsSub (text.drop (open_pos + 1)) [braceClose] then false
      else
        let pre := Text.trimEnd (text.take open_pos)
        Text.endsWith pre "record".data ∨ Text.endsWith pre "variant".data

/-- `contains_keyword`'s search loop.  Each iteration advances
`search_start` by at least `keyword.length`, so `text.length + 1` iterations
always suffice; the explicit `fuel` makes that bound structural.  (An empty
keyword would make the Rust loop spin forever; the only caller passes
`"service"`.) -/
def contains_keyword_go (text keyword : List Char) : Nat → Nat → Bool
  | _, 0 => false
  | search_start, fuel + 1 =>
    match Text.findSub? (text.drop search_start) keyword with
    | none => false
    | some rel =>
      let absolute := search_start + rel
      let before_ok : Bool :=
        match (text.take absolute).getLast? with
        | some ch => ¬ (ch.isAlphanum ∨ ch = '_')
        | none => true
      let after_ok : Bool :=
        match (text.drop (absolute + keyword.length)).head? with
        | some ch => ¬ (ch.isAlphanum ∨ ch = '_')
        | none => true
      if before_ok ∧ after_ok then true
      else contains_keyword_go text keyword (absolute + keyword.length) fuel

/-- `contains_keyword`. -/
def contains_keyword (text keyword : List Char) : Bool :=
  contains_keyword_go text keyword 0 (text.length + 1)

/-- `inside_service_block_from_text`. -/
def inside_service_block_from_text (text : List Char) : Bool :=
  if text.isEmpty then false
  else
    match Text.rfindSub? text [braceOpen] with
    | none => false
    | some open_pos =>
      if Text.containsSub (text.drop (open_pos + 1)) [braceClose] then false
      else
        let pre := Text.trimEnd (text.take open_pos)
        match Text.rfindSub? pre [':'] with
        | none => false
        | some colon_pos =>
          if ¬ (Text.trim (pre.drop (colon_pos + 1))).isEmpty then false
          else contains_keyword (Text.trimEnd (pre.take colon_pos)) "service".data

structure CursorContext where
  clamped : Nat
  rope_len : Nat
  line_start : Nat
  trimmed_line : List Char
  cursor_state : CursorScanState
  inside_record_variant_block : Bool
  inside_service_block : Bool
  deriving DecidableEq, Repr

/-- `CursorContext::new`. -/
def CursorContext.new (rope : Rope) (offset : Nat) : CursorContext :=
  let rope_len := RopeOps.lenChars rope
  let clamped := min offset rope_len
  let total_lines := max (RopeOps.lenLines rope) 1
  let last_line_index := total_lines - 1
  let line_index :=
    if rope_len = 0 then 0
    else if clamped = rope_len then last_line_index
    else RopeOps.charToLine rope clamped
  let capped_index := min line_index last_line_index
  let line_start := RopeOps.lineToChar rope capped_index
  let line_pre :=
    if clamped ≥ line_start then Text.sliceChars rope line_start clamped else []
  let trimmed_line := Text.trimEnd line_pre
  let pre := if clamped = 0 then [] else Text.sliceChars rope 0 clamped
  ⟨clamped, rope_len, line_start, trimmed_line, cursor_scan_state_from_text pre,
    inside_record_variant_block_from_text pre, inside_service_block_from_text pre⟩

/-- `heuristic_context_from_cursor` (the sequence of Rust early returns
becomes a chain of conditionals). -/
def heuristic_context_from_cursor (cursor_context : CursorContext) : CompletionContext :=
  if cursor_context.rope_len = 0 then .TopLevel
  else if cursor_context.clamped < cursor_context.line_start then .Unknown
  else
    let trimmed := cursor_context.trimmed_line
    let cursor_state := cursor_context.cursor_state
    let in_value_block :=
      cursor_context.inside_record_variant_block ∨ cursor_context.inside_service_block
    if cursor_state.in_comment then .Comment
    else if trimmed.isEmpty then
      if in_value_block then .Value
      else if cursor_state.is_top_level then .TopLevel
      else .Unknown
    else if
        (match Text.rfindSub? trimmed ['='] with
          | some eq_idx =>
            Text.startsWith (Text.trimStart (Text.trimEnd (trimmed.take eq_idx))) "type".data
          | none => false : Bool) then .Type
    else if
        (match Text.rfindSub? trimmed [':'] with
          | some colon_idx =>
            ¬ Text.endsWith (Text.trimEnd (trimmed.take colon_idx)) "service".data
          | none => false : Bool) then .Type
    else if ¬ Text.containsSub trimmed [':'] ∧ in_value_block then .Value
    else if Text.startsWith (Text.trimStart trimmed) "type".data ∧
        ¬ Text.containsSub trimmed ['='] then .Definition
    else if cursor_state.is_top_level then .TopLevel
    else .Unknown

/-! ## `completion.rs`: cancellation-aware item building

`DocumentTaskToken::yield_and_check` is declared by its call sites in
`completion.rs` but its body is not part of this source tree.  Modelled from
the spec: at each checkpoint the long-running work compares its token's
captured generation with the counter's current value and abandons the work
(reporting `Cancelled`) on mismatch.  The values of the shared counter as
observed at the three checkpoints are passed in as `c1`, `c2`, `c3`.

The completion items themselves (keyword/primitive/value/service item
construction, `completion.rs:674-726` and `732-747`) are irrelevant to the
cancellation control flow, so the two item-producing computations are taken
as parameters over an arbitrary item type `α`; every theorem below holds for
every instantiation. -/

inductive CompletionBuildOutcome (α : Type) where
  | Completed (items : List α)
  | Cancelled
  deriving DecidableEq, Repr

/-- The item-producing phases of `build_completion_items_async`, abstracted:
`main_items` is the big per-context `match` building `items`, and
`with_service_items` is the `service_method_items` + `append_sorted_items`
step. -/
structure BuildPhases (α : Type) where
  main_items : CompletionContext → Option Nat → List α
  with_service_items : List α → Nat → List α

/-- The inputs of `BuildCompletionItemsParams` that drive control flow. -/
structure BuildFlags where
  context : CompletionContext
  offset : Option Nat
  inside_service_block : Bool
  has_semantic : Bool
  deriving DecidableEq, Repr

/-- `build_completion_items_async`: the checkpoint/early-return skeleton of
`completion.rs:652-754`. -/
def build_completion_items_async {α : Type} (phases : BuildPhases α) (flags : BuildFlags)
    (token : DocumentTaskToken) (c1 c2 c3 : Nat) : CompletionBuildOutcome α :=
  if c1 ≠ token.generation then .Cancelled
  else if flags.context = .Definition ∧
      ¬ (flags.offset.isSome ∧ flags.inside_service_block) then .Completed []
  else if flags.context = .Comment then .Completed []
  else
    let items := phases.main_items flags.context flags.offset
    if c2 ≠ token.generation then .Cancelled
    else
      let items :=
        if ¬ (flags.context = .Value ∨ flags.context = .Definition) ∧
            flags.has_semantic ∧ flags.inside_service_block then
          match flags.offset with
          | some offset_chars => phases.with_service_items items offset_chars
          | none => items
        else items
      if c3 ≠ token.generation then .Cancelled
      else .Completed items

structure JsonRpcError where
  code : Int
  message : String
  deriving DecidableEq, Repr

inductive CompletionResponse (α : Type) where
  | Array (items : List α)
  | List (is_incomplete : Bool) (items : List α)
  deriving DecidableEq, Repr

/-- The tail of the `completion` handler (`completion.rs:517-533`): a
`Cancelled` build yields an empty item list, and the handler answers
`Ok(Some(CompletionResponse::Array(items)))`. -/
def completion_respond {α : Type} (outcome : CompletionBuildOutcome α) :
    Except JsonRpcError (Option (CompletionResponse α)) :=
  let items :=
    match outcome with
    | .Completed items => items
    | .Cancelled => []
  .ok (some (.Array items))

/-! ## `lsp.rs`: snapshots and the `on_change` transition -/

structure Range where
  start : Position
  stop : Position
  deriving DecidableEq, Repr

def Range.default : Range := ⟨⟨0, 0⟩, ⟨0, 0⟩⟩

inductive DiagnosticSeverity where
  | ERROR
  deriving DecidableEq, Repr

structure Diagnostic where
  range : Range
  severity : Option DiagnosticSeverity
  source : Option String
  message : String
  deriving DecidableEq, Repr

/-- `Diagnostic::new_simple`. -/
def Diagnostic.new_simple (range : Range) (message : String) : Diagnostic :=
  ⟨range, none, none, message⟩

/-- Whether a char list is nonempty and all ASCII digits
(`clean_diagnostic_message`'s `is_digits`). -/
def all_digits (s : List Char) : Bool := ¬ s.isEmpty ∧ s.all Char.isDigit

/-- Rust `str::split_once`. -/
def splitOnceSub (s needle : List Char) : Option (List Char × List Char) :=
  match Text.findSub? s needle with
  | some i => some (s.take i, s.drop (i + needle.length))
  | none => none

/-- `clean_diagnostic_message` (strips a trailing " at start..end" span
suffix). -/
def clean_diagnostic_message (message : String) : String :=
  let m := message.data
  match Text.rfindSub? m " at ".data with
  | some idx =>
    let suffix := Text.trim (m.drop (idx + " at ".length))
    match splitOnceSub suffix "..".data with
    | some (s1, s2) =>
      if all_digits s1 ∧ all_digits s2 then String.mk (Text.trimEnd (m.take idx))
      else message
    | none => message
  | none => message

structure DocumentSnapshot where
  rope : Rope
  version : Option Int
  deriving Repr

structure AnalysisSnapshot where
  ast : Option IDLMergedProg
  semantic : Option Semantic
  completion_cache : Option CompletionDocumentCache
  parse_errors : Nat
  version : Option Int
  deriving Repr

/-- The shared server state touched by `on_change` (concurrent maps become
association lists; the per-handler `Client` and configuration are not
modelled). -/
structure ServerState where
  documents : List (String × DocumentSnapshot)
  analysis_map : List (String × AnalysisSnapshot)
  task_states : List (String × DocumentTaskState)
  hover_offset_cache : HoverOffsetCache

/-- `CandidLanguageServer::task_token` (`lsp.rs:593-602`). -/
def ServerState.task_token (st : ServerState) (uri : String) (kind : DocumentTaskKind) :
    DocumentTaskToken × ServerState :=
  let state := (mapGet? st.task_states uri).getD DocumentTaskState.default
  let (token, state) := state.token kind
  (token, { st with task_states := mapInsert st.task_states uri state })

/-- The semantic-error diagnostic pushed by `on_change`'s `Err` arm
(`lsp.rs:775-794`). -/
def semantic_error_diagnostic (err : SemanticError) (rope : Rope) : Diagnostic :=
  let span := err.span
  match offset_to_position span.start rope, offset_to_position span.stop rope with
  | some start, some stop =>
    Diagnostic.new_simple ⟨start, stop⟩ (clean_diagnostic_message err.message)
  | _, _ =>
    ⟨Range.default, some .ERROR, some "semantic", clean_diagnostic_message err.message⟩

/-- `CandidLanguageServer::on_change` (`lsp.rs:678-826`), as a state
transition.  The parse front end is external, so its results are inputs: the
optional AST, the diagnostics already converted from the collected
lexer/parser errors, and the raw parse-error count.  Logging and the final
`publish_diagnostics` call carry no state; the published diagnostics are the
second component of the result. -/
def on_change (R : Renderers) (st : ServerState) (uri : String) (rope : Rope)
    (version : Option Int) (ast : Option IDLMergedProg)
    (parse_diagnostics : List Diagnostic) (parse_error_count : Nat) :
    ServerState × List Diagnostic :=
  let st :=
    { st with
      documents := mapInsert st.documents uri ⟨rope, version⟩
      hover_offset_cache := st.hover_offset_cache.invalidate_uri uri }
  let diagnostics := parse_diagnostics
  match ast with
  | some ast0 =>
    match analyze_program R ast0 rope with
    | .ok semantic =>
      let completion_cache := CompletionDocumentCache.build (some ast0) (some semantic) version
      let snapshot : AnalysisSnapshot :=
        ⟨some ast0, some semantic, completion_cache, parse_error_count, version⟩
      ({ st with analysis_map := mapInsert st.analysis_map uri snapshot }, diagnostics)
    | .error err =>
      let completion_cache := CompletionDocumentCache.build (some ast0) none version
      let diagnostics := diagnostics ++ [semantic_error_diagnostic err rope]
      let snapshot : AnalysisSnapshot :=
        ⟨some ast0, none, completion_cache, parse_error_count, version⟩
      ({ st with analysis_map := mapInsert st.analysis_map uri snapshot }, diagnostics)
  | none =>
    ({ st with analysis_map := st.analysis_map.filter (fun e => e.1 ≠ uri) }, diagnostics)

/-! ## Verification-layer definitions

Specification predicates and concrete fixtures used by the theorems below.
-/

/-- Strengthened well-formedness of a `SymbolTable`: the ids stored in the
span-keyed map are live arena indices, and referential integrity holds.  The
first component is what makes the `add_reference` call in `analyze_type`'s
`VarT` branch pass a valid id. -/
def TableInv (t : SymbolTable) : Prop :=
  (∀ e ∈ t.span_to_symbol_id, e.2 < t.symbol_id_to_span.length) ∧ t.integrity

/-- How one analysis step relates its input and output contexts: the scope
chain is untouched (the body phase never declares) and table well-formedness
is preserved. -/
def EnvTableMorph (a b : Ctx) : Prop :=
  b.env = a.env ∧ (TableInv a.table → TableInv b.table)

/-- The invariant carried by every result of the recursive analysis walk:
successful results are `EnvTableMorph`s of the input, every error is an
`UndefinedVariable`, and an `UndefinedVariable n _` error can only arise when
`n` does not resolve in the input scope chain. -/
def AnalyzeInv (ctx : Ctx) (res : Except SemanticError Ctx) : Prop :=
  (∀ ctx', res = .ok ctx' → EnvTableMorph ctx ctx') ∧
  (∀ e, res = .error e → ∃ n s, e = .UndefinedVariable n s) ∧
  (∀ n s, res = .error (.UndefinedVariable n s) → ctx.find_symbol n = none)

/-- The ids of the top-level `type` bindings of a program, in document
order. -/
def top_level_type_ids (ast : IDLMergedProg) : List String :=
  ast.decs.filterMap (fun dec =>
    match dec with
    | .TypD b => some b.id
    | _ => none)

/-- The `(name, span)` pairs the hoisting pass appends to the scope chain. -/
def hoist_pairs (ast : IDLMergedProg) : List (String × Span) :=
  ast.decs.filterMap (fun dec =>
    match dec with
    | .TypD b => some (b.id, b.span)
    | _ => none)

/-- `b` records exactly the data `lookup_identifier`'s loop stores for the
interval `iv`. -/
def BestEntry.matchesInterval (b : BestEntry) (iv : Interval) : Prop :=
  iv.val = b.val ∧ iv.start = b.span.start ∧ iv.stop = b.span.stop ∧
  b.priority = ident_priority iv.val ∧ b.span_len = iv.stop - iv.start

/-- Loop invariant of `lookup_identifier`'s selection fold over the already
processed intervals `seen`. -/
def SelectionInv (res : Option BestEntry) (seen : List Interval) : Prop :=
  match res with
  | none => seen = []
  | some b =>
    (∃ iv ∈ seen, b.matchesInterval iv) ∧
    (∀ iv ∈ seen, ident_priority iv.val ≤ b.priority) ∧
    (∀ iv ∈ seen, ident_priority iv.val = b.priority → b.span_len ≤ iv.stop - iv.start)

/-- How `analyze_type`'s helper registrations relate input and output
contexts: the scope chain and the symbol table are untouched. -/
def CtxSame (a b : Ctx) : Prop := b.env = a.env ∧ b.table = a.table

/-- The `Semantic` value `analyze_program` assembles from its final
context. -/
def semantic_of_ctx (c : Ctx) : Semantic :=
  ⟨c.table, build_ident_range c, c.fields, c.service_methods, c.params, c.locals,
    c.symbol_ident_spans, c.symbol_ident_names, c.type_docs, c.primitive_spans,
    c.keyword_spans, c.actor⟩

/-- A trivial renderer instantiation for concrete runs (rendered text never
affects the properties under study). -/
def Rtriv : Renderers := ⟨fun _ => "", fun _ => "", fun _ _ => none⟩

/-- Fixture text `type A = B;\ntype B = nat;`. -/
def ropeAB : Rope := "type A = B;\ntype B = nat;".data

/-- Fixture program for `ropeAB`: `A` forward-references nothing, `B` is a
primitive alias.  Well-scoped. -/
def astGood : IDLMergedProg :=
  ⟨[.TypD (.mk [] "A" (.mk (.VarT "B") ⟨9, 10⟩) ⟨0, 10⟩),
    .TypD (.mk [] "B" (.mk (.PrimT .Nat) ⟨21, 24⟩) ⟨12, 24⟩)], none⟩

/-- Fixture program whose first binding references the undeclared name
`C`. -/
def astBad : IDLMergedProg :=
  ⟨[.TypD (.mk [] "A" (.mk (.VarT "C") ⟨9, 10⟩) ⟨0, 10⟩),
    .TypD (.mk [] "B" (.mk (.PrimT .Nat) ⟨21, 24⟩) ⟨12, 24⟩)], none⟩

/-- Overlapping fixture intervals for the lookup-selection witness. -/
def fixtureIntervals : List Interval :=
  [⟨0, 5, .Binding 0⟩, ⟨1, 3, .Reference 0⟩, ⟨1, 2, .Keyword .Type⟩, ⟨7, 9, .Actor⟩]

/-- 65 pairwise-distinct cache keys (same document, columns 0..64). -/
def hoverKeys65 : List HoverCacheOp :=
  (List.range 65).map (fun i => .insert "file:///a.did" none ⟨0, i⟩ i)

/-! ## Helper lemmas -/

theorem mapGet?_insert_self {κ ν : Type} [DecidableEq κ] (m : List (κ × ν)) (k : κ)
    (v : ν) : mapGet? (mapInsert m k v) k = some v := by
  simp [mapGet?, mapInsert]

/-! ## Claim C1 -/

/-- Claim C1, counterexample: `is_fresh` returns `false`, not `true`, for a
request with no version when the cache carries a version. -/
theorem is_fresh_none_request_counterexample :
    CompletionDocumentCache.is_fresh ⟨true, true, some 3⟩ none = false := by decide

/-- Claim C1, amended: a completion cache stamped with version `V` is fresh
exactly for a request with version `V`; a request with *no* version is
treated as stale whenever the cache carries a version; a cache carrying no
version is fresh for every request. -/
theorem is_fresh_characterisation (cache : CompletionDocumentCache)
    (version : Option Int) :
    cache.is_fresh version = true ↔ (cache.version = none ∨ version = cache.version) := by
  obtain ⟨ha, hs, cv⟩ := cache
  cases cv <;> cases version <;>
    simp [CompletionDocumentCache.is_fresh, eq_comm]

/-! ## Claim C8 -/

/-- Claim C8: the cursor-heuristic completion classifier yields `Type` right
after `r` in `type Foo = r`, `Definition` at the trailing position of
`type He`, `Value` on the indented line inside an open `variant {`
body, and `TopLevel` for an empty document. -/
theorem heuristic_context_concrete_cases :
    heuristic_context_from_cursor (CursorContext.new "type Foo = r".data 12) =
        .Type ∧
    heuristic_context_from_cursor (CursorContext.new "type He".data 7) =
        .Definition ∧
    heuristic_context_from_cursor
        (CursorContext.new ("variant ".data ++ [braceOpen] ++ "\n  n".data) 13) =
        .Value ∧
    heuristic_context_from_cursor (CursorContext.new [] 0) = .TopLevel :=
  ⟨by decide, by decide, by decide, by decide⟩

/-! ## Claim C10 -/

/-- Claim C10: when the completion-item build reports `Cancelled`, the public
handler still answers with a successful response holding an empty item array
(no error, no absent result). -/
theorem cancelled_completion_returns_empty_array (α : Type) (phases : BuildPhases α)
    (flags : BuildFlags) (token : DocumentTaskToken) (c1 c2 c3 : Nat)
    (h : build_completion_items_async phases flags token c1 c2 c3 = .Cancelled) :
    completion_respond (build_completion_items_async phases flags token c1 c2 c3) =
      .ok (some (.Array [])) := by
  rw [h]; rfl

/-- Claim C10, witness: a build whose first checkpoint sees a newer
generation is cancelled, and the handler answers `Ok(Some(Array []))`. -/
theorem cancelled_completion_returns_empty_array_witness :
    completion_respond
        (build_completion_items_async (⟨fun _ _ => [], fun i _ => i⟩ : BuildPhases Nat)
          ⟨.Unknown, none, false, false⟩ ⟨.Completion, 0⟩ 1 1 1) =
      .ok (some (.Array [])) :=
  cancelled_completion_returns_empty_array Nat ⟨fun _ _ => [], fun i _ => i⟩
    ⟨.Unknown, none, false, false⟩ ⟨.Completion, 0⟩ 1 1 1 (by decide)

theorem tableInv_default : TableInv SymbolTable.default := by
  refine ⟨?_, ?_, ?_⟩ <;> simp [SymbolTable.default, SymbolTable.integrity]

theorem add_symbol_inv (t : SymbolTable) (s : Span) (h : TableInv t) :
    TableInv (t.add_symbol s).2 ∧
      (t.add_symbol s).2.symbol_id_to_span.length = t.symbol_id_to_span.length + 1 := by
  obtain ⟨h1, h2, h3⟩ := h
  refine ⟨⟨?_, ?_, ?_⟩, by simp [SymbolTable.add_symbol]⟩
  · intro e he
    simp only [SymbolTable.add_symbol, mapInsert, List.mem_cons] at he
    simp only [SymbolTable.add_symbol, List.length_append, List.length_singleton]
    rcases he with he | he
    · subst he
      simp
    · exact Nat.lt_succ_of_lt (h1 e (List.mem_of_mem_filter he))
  · intro e he
    simp only [SymbolTable.add_symbol] at he
    simp only [SymbolTable.add_symbol, List.length_append, List.length_singleton]
    exact Nat.lt_succ_of_lt (h2 e he)
  · intro r hr sid hsid
    simp only [SymbolTable.add_symbol] at hr
    simp only [SymbolTable.add_symbol, List.length_append, List.length_singleton]
    exact Nat.lt_succ_of_lt (h3 r hr sid hsid)

theorem mmapPush_keys {κ ν : Type} [DecidableEq κ] (m : List (κ × List ν)) (k : κ)
    (v : ν) (P : κ → Prop) (hm : ∀ e ∈ m, P e.1) (hk : P k) :
    ∀ e ∈ mmapPush m k v, P e.1 := by
  intro e he
  unfold mmapPush at he
  split at he
  · rcases List.mem_map.mp he with ⟨e0, he0, rfl⟩
    split
    · simpa using hm e0 he0
    · exact hm e0 he0
  · rcases List.mem_append.mp he with h' | h'
    · exact hm e h'
    · simp at h'
      subst h'
      exact hk

theorem add_reference_inv (t : SymbolTable) (s : Span) (o : Option SymbolId)
    (h : TableInv t) (ho : ∀ sid, o = some sid → sid < t.symbol_id_to_span.length) :
    TableInv (t.add_reference s o) ∧
      (t.add_reference s o).symbol_id_to_span.length = t.symbol_id_to_span.length := by
  obtain ⟨h1, h2, h3⟩ := h
  cases o with
  | none =>
    refine ⟨⟨?_, ?_, ?_⟩, by simp [SymbolTable.add_reference]⟩
    · intro e he
      simp only [SymbolTable.add_reference] at he ⊢
      exact h1 e he
    · intro e he
      simp only [SymbolTable.add_reference] at he ⊢
      exact h2 e he
    · intro r hr sid hsid
      simp only [SymbolTable.add_reference] at hr ⊢
      rcases List.mem_append.mp hr with hr | hr
      · exact h3 r hr sid hsid
      · simp at hr
        subst hr
        simp at hsid
  | some sid0 =>
    have hsid0 : sid0 < t.symbol_id_to_span.length := ho sid0 rfl
    refine ⟨⟨?_, ?_, ?_⟩, by simp [SymbolTable.add_reference]⟩
    · intro e he
      simp only [SymbolTable.add_reference] at he ⊢
      exact h1 e he
    · intro e he
      simp only [SymbolTable.add_reference] at he ⊢
      exact mmapPush_keys t.symbol_id_to_references sid0
        t.reference_id_to_reference.length
        (fun k => k < t.symbol_id_to_span.length) h2 hsid0 e he
    · intro r hr sid hsid
      simp only [SymbolTable.add_reference] at hr ⊢
      rcases List.mem_append.mp hr with hr | hr
      · exact h3 r hr sid hsid
      · simp at hr
        subst hr
        simp at hsid
        subst hsid
        exact hsid0

theorem add_import_inv (t : SymbolTable) (s : Span) (path : String) (kind : ImportKind)
    (h : TableInv t) :
    TableInv (t.add_import s path kind).2 ∧
      (t.add_import s path kind).2.symbol_id_to_span.length =
        t.symbol_id_to_span.length + 1 := by
  have hsym := add_symbol_inv t s h
  obtain ⟨⟨h1, h2, h3⟩, hlen⟩ := hsym
  exact ⟨⟨fun e he => h1 e he, fun e he => h2 e he, fun r hr => h3 r hr⟩, hlen⟩

theorem mapGet?_symbol_bound (t : SymbolTable) (sp : Span) (sid : SymbolId)
    (h : TableInv t) (hget : mapGet? t.span_to_symbol_id sp = some sid) :
    sid < t.symbol_id_to_span.length := by
  unfold mapGet? at hget
  rcases hfind : t.span_to_symbol_id.find? (fun e => decide (e.1 = sp)) with _ | e
  · rw [hfind] at hget
    simp at hget
  · rw [hfind] at hget
    simp at hget
    have hmem := List.mem_of_find?_eq_some hfind
    exact hget ▸ h.1 e hmem



theorem ctxSame_refl (c : Ctx) : CtxSame c c := ⟨rfl, rfl⟩

theorem ctxSame_trans {a b c : Ctx} (h1 : CtxSame a b) (h2 : CtxSame b c) :
    CtxSame a c := ⟨h2.1.trans h1.1, h2.2.trans h1.2⟩

theorem foldl_preserve {α β : Type} (f : β → α → β) (P : β → Prop)
    (hstep : ∀ b a, P b → P (f b a)) :
    ∀ (l : List α) (b : β), P b → P (l.foldl f b) := by
  intro l
  induction l with
  | nil => exact fun b h => h
  | cons a rest ih => exact fun b h => ih (f b a) (hstep b a h)

theorem register_primitive_same (ctx : Ctx) (span : Span) (kind : PrimType) :
    CtxSame ctx (ctx.register_primitive span kind) := by
  unfold Ctx.register_primitive
  split
  · exact ctxSame_refl ctx
  · split <;> exact ⟨rfl, rfl⟩

theorem register_blob_same (ctx : Ctx) (span : Span) :
    CtxSame ctx (ctx.register_blob span) := by
  unfold Ctx.register_blob
  split
  · exact ctxSame_refl ctx
  · split <;> exact ⟨rfl, rfl⟩

theorem register_keyword_within_same (ctx : Ctx) (span : Span) (kw : KeywordDoc)
    (fe : Bool) : CtxSame ctx (ctx.register_keyword_within span kw fe) := by
  unfold Ctx.register_keyword_within
  split
  · exact ctxSame_refl ctx
  · split <;> exact ⟨rfl, rfl⟩

theorem register_keyword_same (ctx : Ctx) (span : Span) (kw : KeywordDoc) :
    CtxSame ctx (ctx.register_keyword span kw) :=
  register_keyword_within_same ctx span kw false

theorem register_keyword_from_end_same (ctx : Ctx) (span : Span) (kw : KeywordDoc) :
    CtxSame ctx (ctx.register_keyword_from_end span kw) :=
  register_keyword_within_same ctx span kw true

theorem register_field_same (ctx : Ctx) (field : TypeField) :
    CtxSame ctx (ctx.register_field field) := by
  unfold Ctx.register_field
  dsimp only
  repeat' split
  all_goals exact ⟨rfl, rfl⟩

theorem register_service_method_same (R : Renderers) (ctx : Ctx) (b : Binding)
    (pn : Option String) : CtxSame ctx (Ctx.register_service_method R ctx b pn) :=
  ⟨rfl, rfl⟩

theorem register_function_params_same (ctx : Ctx) (ft : FuncType) (fs : Span) :
    CtxSame ctx (ctx.register_function_params ft fs) := by
  unfold Ctx.register_function_params
  dsimp only
  refine foldl_preserve _ (fun (acc : Nat × Ctx) => CtxSame ctx acc.2) ?_ ft.args
    (args_region_start ctx.rope fs, ctx) (ctxSame_refl ctx)
  intro acc arg hacc
  refine ctxSame_trans hacc ?_
  rcases acc with ⟨cur, c⟩
  dsimp only
  repeat' split
  all_goals exact ⟨rfl, rfl⟩

theorem register_import_keyword_same (ctx : Ctx) (span : Span) (path : String) :
    CtxSame ctx (ctx.register_import_keyword span path) := by
  unfold Ctx.register_import_keyword
  dsimp only
  repeat' split
  all_goals exact ⟨rfl, rfl⟩

theorem register_import_keywords_from_text_same (ctx : Ctx) :
    CtxSame ctx ctx.register_import_keywords_from_text := by
  unfold Ctx.register_import_keywords_from_text
  dsimp only
  refine foldl_preserve _ (fun c => CtxSame ctx c) ?_ _ ctx (ctxSame_refl ctx)
  intro c i hc
  refine ctxSame_trans hc ?_
  dsimp only
  repeat' split
  all_goals exact ⟨rfl, rfl⟩

theorem push_scope_same (ctx : Ctx) (span : Span) : CtxSame ctx (ctx.push_scope span) :=
  ⟨rfl, rfl⟩

theorem pop_scope_same (ctx : Ctx) : CtxSame ctx ctx.pop_scope := ⟨rfl, rfl⟩

theorem push_type_name_same (ctx : Ctx) (n : Option String) :
    CtxSame ctx (ctx.push_type_name n) := ⟨rfl, rfl⟩

theorem pop_type_name_same (ctx : Ctx) : CtxSame ctx ctx.pop_type_name := ⟨rfl, rfl⟩

theorem morph_of_same {a b : Ctx} (h : CtxSame a b) : EnvTableMorph a b :=
  ⟨h.1, fun hti => h.2 ▸ hti⟩

theorem morph_trans {a b c : Ctx} (h1 : EnvTableMorph a b) (h2 : EnvTableMorph b c) :
    EnvTableMorph a c := ⟨h2.1.trans h1.1, fun h => h2.2 (h1.2 h)⟩

theorem find_symbol_env_eq {a b : Ctx} (h : b.env = a.env) (n : String) :
    b.find_symbol n = a.find_symbol n := by
  unfold Ctx.find_symbol
  rw [h]

theorem analyzeInv_ok_of_morph {c c' : Ctx} (hm : EnvTableMorph c c') :
    AnalyzeInv c (.ok c') := by
  refine ⟨fun c'' h => ?_, by simp, by simp⟩
  cases h
  exact hm

theorem analyzeInv_pure (c : Ctx) : AnalyzeInv c (.ok c) :=
  analyzeInv_ok_of_morph ⟨rfl, id⟩

theorem analyzeInv_pre {c0 c1 : Ctx} {res : Except SemanticError Ctx}
    (hm : EnvTableMorph c0 c1) (h : AnalyzeInv c1 res) : AnalyzeInv c0 res := by
  refine ⟨fun c' hres => morph_trans hm (h.1 c' hres), h.2.1, fun n s hres => ?_⟩
  rw [← find_symbol_env_eq hm.1 n]
  exact h.2.2 n s hres

theorem analyzeInv_bind {c : Ctx} {r1 res : Except SemanticError Ctx}
    {g : Ctx → Except SemanticError Ctx} (h1 : AnalyzeInv c r1)
    (h2 : ∀ c', r1 = .ok c' → AnalyzeInv c' (g c'))
    (herr : ∀ e, r1 = .error e → res = .error e)
    (hok : ∀ c', r1 = .ok c' → res = g c') :
    AnalyzeInv c res := by
  cases hr : r1 with
  | error e =>
    rw [herr e hr]
    refine ⟨fun c' h => by simp at h, fun e' he' => ?_, fun n s hres2 => ?_⟩
    · exact h1.2.1 e' (hr.trans he')
    · exact h1.2.2 n s (hr.trans hres2)
  | ok c' =>
    rw [hok c' hr]
    exact analyzeInv_pre (h1.1 c' hr) (h2 c' hr)



mutual

theorem analyze_type_inv (R : Renderers) (t : IDLTypeWithSpan) (ctx : Ctx) :
    AnalyzeInv ctx (analyze_type R t ctx) := by
  cases t with
  | mk kind span =>
    cases kind with
    | PrimT k =>
      exact analyzeInv_ok_of_morph (morph_of_same (register_primitive_same ctx span k))
    | PrincipalT =>
      exact analyzeInv_ok_of_morph
        (morph_of_same (register_keyword_same ctx span .Principal))
    | VarT name =>
      rcases hfs : ctx.find_symbol name with _ | ds
      · simp only [analyze_type, hfs]
        refine ⟨fun c' h => by simp at h, fun e he => ?_, fun n s hres => ?_⟩
        · simp at he
          exact ⟨name, span, he.symm⟩
        · simp at hres
          obtain ⟨hn, hs⟩ := hres
          subst hn
          exact hfs
      · rcases hget : mapGet? ctx.table.span_to_symbol_id ds with _ | sid
        · simp only [analyze_type, hfs, hget]
          exact analyzeInv_pure ctx
        · simp only [analyze_type, hfs, hget]
          refine analyzeInv_ok_of_morph ⟨rfl, fun hti => ?_⟩
          refine (add_reference_inv ctx.table span (some sid) hti ?_).1
          intro sid' hs'
          cases hs'
          exact mapGet?_symbol_bound ctx.table ds sid hti hget
    | FuncT func =>
      cases func with
      | mk modes args rets =>
        simp only [analyze_type]
        refine analyzeInv_pre (morph_of_same ?_)
          (analyzeInv_bind (analyze_type_list_inv R args _)
            (fun c' _ => analyze_type_list_inv R rets c')
            (fun e he => by rw [he]) (fun c' hc => by rw [hc]))
        refine foldl_preserve _ (fun c => CtxSame ctx c) ?_ modes _ ?_
        · intro c m hc
          refine ctxSame_trans hc ?_
          cases m
          · exact register_keyword_from_end_same c span .Oneway
          · exact register_keyword_from_end_same c span .Query
          · exact register_keyword_from_end_same c span .CompositeQuery
        · exact ctxSame_trans (register_keyword_same ctx span .Func)
            (register_function_params_same _ (.mk modes args rets) span)
    | OptT inner =>
      simp only [analyze_type]
      exact analyzeInv_pre (morph_of_same (register_keyword_same ctx span .Opt))
        (analyze_type_inv R inner _)
    | VecT inner =>
      simp only [analyze_type]
      split
      · exact analyzeInv_pre (morph_of_same (register_blob_same ctx span))
          (analyze_type_inv R inner _)
      · exact analyzeInv_pre (morph_of_same (register_keyword_same ctx span .Vec))
          (analyze_type_inv R inner _)
    | RecordT type_fields =>
      simp only [analyze_type]
      exact analyzeInv_pre
        (morph_of_same (ctxSame_trans (register_keyword_same ctx span .Record)
          (push_scope_same _ span)))
        (analyzeInv_bind (analyze_type_fields_inv R type_fields _)
          (fun c' _ => analyzeInv_ok_of_morph (morph_of_same (pop_scope_same c')))
          (fun e he => by rw [he]) (fun c' hc => by rw [hc]))
    | VariantT type_fields =>
      simp only [analyze_type]
      exact analyzeInv_pre
        (morph_of_same (ctxSame_trans (register_keyword_same ctx span .Variant)
          (push_scope_same _ span)))
        (analyzeInv_bind (analyze_type_fields_inv R type_fields _)
          (fun c' _ => analyzeInv_ok_of_morph (morph_of_same (pop_scope_same c')))
          (fun e he => by rw [he]) (fun c' hc => by rw [hc]))
    | ServT bindings =>
      simp only [analyze_type]
      exact analyzeInv_pre (morph_of_same (register_keyword_same ctx span .Service))
        (analyze_serv_bindings_inv R _ bindings _)
    | ClassT args ret =>
      simp only [analyze_type]
      exact analyzeInv_bind (analyze_type_list_inv R args ctx)
        (fun c' _ => analyze_type_inv R ret c')
        (fun e he => by rw [he]) (fun c' hc => by rw [hc])

theorem analyze_binding_inv (R : Renderers) (b : Binding) (ctx : Ctx) :
    AnalyzeInv ctx (analyze_binding R b ctx) := by
  cases b with
  | mk docs id typ span =>
    simp only [analyze_binding]
    exact analyze_type_inv R typ ctx

theorem analyze_type_list_inv (R : Renderers) (l : List IDLTypeWithSpan) (ctx : Ctx) :
    AnalyzeInv ctx (analyze_type_list R l ctx) := by
  cases l with
  | nil =>
    simp only [analyze_type_list]
    exact analyzeInv_pure ctx
  | cons t ts =>
    simp only [analyze_type_list]
    exact analyzeInv_bind (analyze_type_inv R t ctx)
      (fun c' _ => analyze_type_list_inv R ts c')
      (fun e he => by rw [he]) (fun c' hc => by rw [hc])

theorem analyze_type_fields_inv (R : Renderers) (l : List TypeField) (ctx : Ctx) :
    AnalyzeInv ctx (analyze_type_fields R l ctx) := by
  cases l with
  | nil =>
    simp only [analyze_type_fields]
    exact analyzeInv_pure ctx
  | cons field rest =>
    cases field with
    | mk docs label typ span =>
      simp only [analyze_type_fields]
      exact analyzeInv_pre (morph_of_same (register_field_same ctx (.mk docs label typ span)))
        (analyzeInv_bind (analyze_type_inv R typ _)
          (fun c' _ => analyze_type_fields_inv R rest c')
          (fun e he => by rw [he]) (fun c' hc => by rw [hc]))

theorem analyze_serv_bindings_inv (R : Renderers) (pn : Option String)
    (l : List Binding) (ctx : Ctx) :
    AnalyzeInv ctx (analyze_serv_bindings R pn l ctx) := by
  cases l with
  | nil =>
    simp only [analyze_serv_bindings]
    exact analyzeInv_pure ctx
  | cons b rest =>
    cases b with
    | mk docs id typ span =>
      simp only [analyze_serv_bindings]
      exact analyzeInv_pre
        (morph_of_same (register_service_method_same R ctx (.mk docs id typ span) pn))
        (analyzeInv_bind (analyze_type_inv R typ _)
          (fun c' _ => analyze_serv_bindings_inv R pn rest c')
          (fun e he => by rw [he]) (fun c' hc => by rw [hc]))

end



theorem analyze_dec_inv (R : Renderers) (dec : Dec) (ctx : Ctx) :
    AnalyzeInv ctx (analyze_dec R dec ctx) := by
  cases dec with
  | TypD binding =>
    simp only [analyze_dec]
    exact analyzeInv_pre (morph_of_same (push_type_name_same ctx (some binding.id)))
      (analyzeInv_bind (analyze_binding_inv R binding _)
        (fun c' _ => analyzeInv_ok_of_morph (morph_of_same (pop_type_name_same c')))
        (fun e he => by rw [he]) (fun c' hc => by rw [hc]))
  | ImportType path span =>
    simp only [analyze_dec]
    exact analyzeInv_pure ctx
  | ImportServ path span =>
    simp only [analyze_dec]
    exact analyzeInv_pure ctx

theorem analyze_decs_inv (R : Renderers) (l : List Dec) (ctx : Ctx) :
    AnalyzeInv ctx (analyze_decs R l ctx) := by
  induction l generalizing ctx with
  | nil =>
    simp only [analyze_decs]
    exact analyzeInv_pure ctx
  | cons dec rest ih =>
    simp only [analyze_decs]
    exact analyzeInv_bind (analyze_dec_inv R dec ctx) (fun c' _ => ih c')
      (fun e he => by rw [he]) (fun c' hc => by rw [hc])

theorem analyze_actor_inv (R : Renderers) (actor : IDLActorType) (ctx : Ctx) :
    AnalyzeInv ctx (analyze_actor R actor ctx) := by
  simp only [analyze_actor]
  refine analyzeInv_pre (morph_of_same ?_)
    (analyzeInv_bind (analyze_type_inv R actor.typ _)
      (fun c' _ => analyzeInv_ok_of_morph (morph_of_same (pop_type_name_same c')))
      (fun e he => by rw [he]) (fun c' hc => by rw [hc]))
  refine ctxSame_trans (register_keyword_same ctx actor.span .Service) ?_
  exact ctxSame_trans (⟨rfl, rfl⟩ :
    CtxSame (ctx.register_keyword actor.span .Service)
      { ctx.register_keyword actor.span .Service with
        actor := some ⟨actor.span, compute_actor_name_span actor
            (ctx.register_keyword actor.span .Service).rope,
          format_docs actor.docs,
          R.render_actor_declaration
            ((compute_actor_name_span actor
                (ctx.register_keyword actor.span .Service).rope).map
              (fun span =>
                String.mk (spanSlice (ctx.register_keyword actor.span .Service).rope span)))
            actor.typ⟩ }) (push_type_name_same _ _)



theorem declare_symbol_parts (ctx : Ctx) (name : String) (span : Span) :
    (ctx.declare_symbol name span).2.env = ctx.env ++ [(name, span)] ∧
      (ctx.declare_symbol name span).2.table = (ctx.table.add_symbol span).2 := by
  unfold Ctx.declare_symbol Ctx.register_symbol_slot
  dsimp only
  exact ⟨rfl, rfl⟩



theorem add_symbol_len (t : SymbolTable) (s : Span) :
    (t.add_symbol s).2.symbol_id_to_span.length = t.symbol_id_to_span.length + 1 := by
  simp [SymbolTable.add_symbol]

theorem add_import_len (t : SymbolTable) (s : Span) (path : String) (kind : ImportKind) :
    (t.add_import s path kind).2.symbol_id_to_span.length =
      t.symbol_id_to_span.length + 1 := by
  simp [SymbolTable.add_import, SymbolTable.add_symbol]

theorem register_symbol_slot_parts (c : Ctx) :
    c.register_symbol_slot.env = c.env ∧ c.register_symbol_slot.table = c.table :=
  ⟨rfl, rfl⟩

theorem hoist_dec_props (R : Renderers) (ctx : Ctx) (dec : Dec) :
    (hoist_dec R ctx dec).env =
        ctx.env ++
          (match dec with
            | .TypD b => [(b.id, b.span)]
            | _ => ([] : List (String × Span))) ∧
      (TableInv ctx.table → TableInv (hoist_dec R ctx dec).table) ∧
      (hoist_dec R ctx dec).table.symbol_id_to_span.length =
        ctx.table.symbol_id_to_span.length + 1 := by
  cases dec with
  | TypD binding =>
    have hkw := register_keyword_same ctx binding.span .Type
    have hds := declare_symbol_parts (ctx.register_keyword binding.span .Type)
      binding.id binding.span
    simp only [hoist_dec]
    rcases hd : (ctx.register_keyword binding.span .Type).declare_symbol
        binding.id binding.span with ⟨sym, c2⟩
    dsimp only
    have hc2 : c2 = ((ctx.register_keyword binding.span .Type).declare_symbol
        binding.id binding.span).2 := (congrArg Prod.snd hd).symm
    have hc2env : c2.env = ctx.env ++ [(binding.id, binding.span)] := by
      rw [hc2, hds.1, hkw.1]
    have hc2tab : c2.table =
        ((ctx.register_keyword binding.span .Type).table.add_symbol binding.span).2 := by
      rw [hc2, hds.2]
    cases hcb : compute_binding_ident_span binding c2.rope with
    | some isp =>
      simp only [hcb]
      refine ⟨hc2env, fun hti => ?_, ?_⟩
      · show TableInv c2.table
        rw [hc2tab]
        exact (add_symbol_inv _ _ (hkw.2.symm ▸ hti)).1
      · show c2.table.symbol_id_to_span.length = _
        rw [hc2tab, add_symbol_len, hkw.2]
    | none =>
      simp only [hcb]
      refine ⟨hc2env, fun hti => ?_, ?_⟩
      · show TableInv c2.table
        rw [hc2tab]
        exact (add_symbol_inv _ _ (hkw.2.symm ▸ hti)).1
      · show c2.table.symbol_id_to_span.length = _
        rw [hc2tab, add_symbol_len, hkw.2]
  | ImportType path span =>
    have h1 := register_import_keyword_same
      { ctx with table := (ctx.table.add_import span path .Type).2 } span path
    simp only [hoist_dec]
    refine ⟨?_, fun hti => ?_, ?_⟩
    · rw [List.append_nil, (register_symbol_slot_parts _).1, h1.1]
    · rw [(register_symbol_slot_parts _).2, h1.2]
      exact (add_import_inv ctx.table span path .Type hti).1
    · rw [(register_symbol_slot_parts _).2, h1.2]
      exact add_import_len ctx.table span path .Type
  | ImportServ path span =>
    have h1 := register_import_keyword_same
      { ctx with table := (ctx.table.add_import span path .Service).2 } span path
    simp only [hoist_dec]
    refine ⟨?_, fun hti => ?_, ?_⟩
    · rw [List.append_nil, (register_symbol_slot_parts _).1, h1.1]
    · rw [(register_symbol_slot_parts _).2, h1.2]
      exact (add_import_inv ctx.table span path .Service hti).1
    · rw [(register_symbol_slot_parts _).2, h1.2]
      exact add_import_len ctx.table span path .Service



theorem hoist_foldl (R : Renderers) (decs : List Dec) (ctx : Ctx) :
    (decs.foldl (hoist_dec R) ctx).env =
        ctx.env ++ decs.filterMap (fun dec =>
          match dec with
          | .TypD b => some (b.id, b.span)
          | _ => none) ∧
      (TableInv ctx.table → TableInv (decs.foldl (hoist_dec R) ctx).table) ∧
      (decs.foldl (hoist_dec R) ctx).table.symbol_id_to_span.length =
        ctx.table.symbol_id_to_span.length + decs.length := by
  induction decs generalizing ctx with
  | nil => simp
  | cons dec rest ih =>
    have hd := hoist_dec_props R ctx dec
    have hr := ih (hoist_dec R ctx dec)
    refine ⟨?_, fun hti => hr.2.1 (hd.2.1 hti), ?_⟩
    · rw [List.foldl_cons, hr.1, hd.1]
      cases dec <;> simp
    · rw [List.foldl_cons, hr.2.2, hd.2.2]
      simp
      omega

theorem find_symbol_none_names {c : Ctx} {n : String} (h : c.find_symbol n = none) :
    ∀ p ∈ c.env, p.1 ≠ n := by
  unfold Ctx.find_symbol at h
  intro p hp hne
  rcases hfind : List.find? (fun e => decide (e.1 = n)) c.env.reverse with _ | q
  · have := List.find?_eq_none.mp hfind p (List.mem_reverse.mpr hp)
    simp at this
    exact this hne
  · rw [hfind] at h
    simp at h

theorem top_level_ids_eq_hoist_fst (ast : IDLMergedProg) :
    top_level_type_ids ast = (hoist_pairs ast).map Prod.fst := by
  unfold top_level_type_ids hoist_pairs
  induction ast.decs with
  | nil => simp
  | cons dec rest ih =>
    cases dec <;> simp [ih]



theorem analyze_program_decs_err (R : Renderers) (ast : IDLMergedProg) (rope : Rope)
    (e : SemanticError)
    (h2 : analyze_decs R ast.decs (ast.decs.foldl (hoist_dec R) (Ctx.init rope)) =
      .error e) :
    analyze_program R ast rope = .error e := by
  simp only [analyze_program]
  rw [h2]

theorem analyze_program_actor_err (R : Renderers) (ast : IDLMergedProg) (rope : Rope)
    (c2 : Ctx) (actor : IDLActorType) (e : SemanticError)
    (h2 : analyze_decs R ast.decs (ast.decs.foldl (hoist_dec R) (Ctx.init rope)) = .ok c2)
    (hactor : ast.actor = some actor) (h3 : analyze_actor R actor c2 = .error e) :
    analyze_program R ast rope = .error e := by
  simp only [analyze_program]
  rw [h2, hactor]
  dsimp only
  rw [h3]

theorem analyze_program_ok_no_actor (R : Renderers) (ast : IDLMergedProg) (rope : Rope)
    (c2 : Ctx)
    (h2 : analyze_decs R ast.decs (ast.decs.foldl (hoist_dec R) (Ctx.init rope)) = .ok c2)
    (hactor : ast.actor = none) :
    analyze_program R ast rope =
      .ok (semantic_of_ctx c2.register_import_keywords_from_text) := by
  simp only [analyze_program]
  rw [h2, hactor]
  rfl

theorem analyze_program_ok_actor (R : Renderers) (ast : IDLMergedProg) (rope : Rope)
    (c2 c3 : Ctx) (actor : IDLActorType)
    (h2 : analyze_decs R ast.decs (ast.decs.foldl (hoist_dec R) (Ctx.init rope)) = .ok c2)
    (hactor : ast.actor = some actor) (h3 : analyze_actor R actor c2 = .ok c3) :
    analyze_program R ast rope =
      .ok (semantic_of_ctx c3.register_import_keywords_from_text) := by
  simp only [analyze_program]
  rw [h2, hactor]
  dsimp only
  rw [h3]
  rfl

theorem analyze_program_master (R : Renderers) (ast : IDLMergedProg) (rope : Rope) :
    (∀ e, analyze_program R ast rope = .error e →
        (∃ n s, e = .UndefinedVariable n s) ∧
        (∀ n s, e = .UndefinedVariable n s → n ∉ top_level_type_ids ast)) ∧
      (∀ sem, analyze_program R ast rope = .ok sem → sem.table.integrity) := by
  have hinit : TableInv (Ctx.init rope).table := tableInv_default
  have hh := hoist_foldl R ast.decs (Ctx.init rope)
  have hhenv : (ast.decs.foldl (hoist_dec R) (Ctx.init rope)).env = hoist_pairs ast := by
    rw [hh.1]
    simp [Ctx.init, hoist_pairs]
  have hhtab : TableInv (ast.decs.foldl (hoist_dec R) (Ctx.init rope)).table :=
    hh.2.1 hinit
  have hdecs := analyze_decs_inv R ast.decs (ast.decs.foldl (hoist_dec R) (Ctx.init rope))
  have hnotin : ∀ (c : Ctx) (n : String), c.env = hoist_pairs ast →
      c.find_symbol n = none → n ∉ top_level_type_ids ast := by
    intro c n hcenv hfs hmem
    rw [top_level_ids_eq_hoist_fst] at hmem
    rcases List.mem_map.mp hmem with ⟨p, hp, hpn⟩
    exact find_symbol_none_names hfs p (by rw [hcenv]; exact hp) hpn
  constructor
  · intro e he
    rcases h2 : analyze_decs R ast.decs (ast.decs.foldl (hoist_dec R) (Ctx.init rope))
        with e2 | c2
    · have := (analyze_program_decs_err R ast rope e2 h2).symm.trans he
      simp only [Except.error.injEq] at this
      subst this
      refine ⟨hdecs.2.1 e2 h2, fun n s hns => ?_⟩
      subst hns
      exact hnotin _ n hhenv (hdecs.2.2 n s h2)
    · cases hactor : ast.actor with
      | none =>
        have hok := analyze_program_ok_no_actor R ast rope c2 h2 hactor
        rw [hok] at he
        simp at he
      | some actor =>
        rcases h3 : analyze_actor R actor c2 with e3 | c3
        · have := (analyze_program_actor_err R ast rope c2 actor e3 h2 hactor h3).symm.trans he
          simp only [Except.error.injEq] at this
          subst this
          have hai := analyze_actor_inv R actor c2
          refine ⟨hai.2.1 e3 h3, fun n s hns => ?_⟩
          subst hns
          have hfs := hai.2.2 n s h3
          rw [find_symbol_env_eq (hdecs.1 c2 h2).1 n] at hfs
          exact hnotin _ n hhenv hfs
        · have hok := analyze_program_ok_actor R ast rope c2 c3 actor h2 hactor h3
          rw [hok] at he
          simp at he
  · intro sem hsem
    rcases h2 : analyze_decs R ast.decs (ast.decs.foldl (hoist_dec R) (Ctx.init rope))
        with e2 | c2
    · rw [analyze_program_decs_err R ast rope e2 h2] at hsem
      simp at hsem
    · have hc2 : TableInv c2.table := (hdecs.1 c2 h2).2 hhtab
      cases hactor : ast.actor with
      | none =>
        have hok := analyze_program_ok_no_actor R ast rope c2 h2 hactor
        rw [hok] at hsem
        simp only [Except.ok.injEq] at hsem
        subst hsem
        have hsame := register_import_keywords_from_text_same c2
        show SymbolTable.integrity (semantic_of_ctx _).table
        have : (semantic_of_ctx c2.register_import_keywords_from_text).table = c2.table := by
          show c2.register_import_keywords_from_text.table = c2.table
          exact hsame.2
        rw [this]
        exact hc2.2
      | some actor =>
        rcases h3 : analyze_actor R actor c2 with e3 | c3
        · rw [analyze_program_actor_err R ast rope c2 actor e3 h2 hactor h3] at hsem
          simp at hsem
        · have hok := analyze_program_ok_actor R ast rope c2 c3 actor h2 hactor h3
          rw [hok] at hsem
          simp only [Except.ok.injEq] at hsem
          subst hsem
          have hai := analyze_actor_inv R actor c2
          have hc3 : TableInv c3.table := (hai.1 c3 h3).2 hc2
          have hsame := register_import_keywords_from_text_same c3
          show SymbolTable.integrity (semantic_of_ctx _).table
          have : (semantic_of_ctx c3.register_import_keywords_from_text).table =
              c3.table := by
            show c3.register_import_keywords_from_text.table = c3.table
            exact hsame.2
          rw [this]
          exact hc3.2



theorem applyTableOps_inv (t : SymbolTable) (ops : List TableOp) (hti : TableInv t)
    (hv : validOps t ops) : TableInv (applyTableOps t ops) := by
  induction ops generalizing t with
  | nil => exact hti
  | cons op rest ih =>
    obtain ⟨hv1, hv2⟩ := hv
    refine ih (applyTableOp t op) ?_ hv2
    cases op with
    | addSymbol s => exact (add_symbol_inv t s hti).1
    | addReference s o =>
      refine (add_reference_inv t s o hti ?_).1
      cases o with
      | none => exact fun sid hs => nomatch hs
      | some s0 =>
        intro sid hs
        cases hs
        exact hv1
    | addImport s p k => exact (add_import_inv t s p k hti).1

/-! ## Claim C3 -/

/-- Claim C3: resolving a variable whose name is not in scope yields
`UndefinedVariable` carrying the offending span; every `analyze_program`
error is of that shape; and on an analysis error `on_change` stores a
snapshot with `semantic = none` (replacing any previous entry for the
document) while still emitting the parse diagnostics plus one diagnostic
for the semantic error. -/
theorem undefined_variable_all_or_nothing :
    (∀ (R : Renderers) (name : String) (span : Span) (ctx : Ctx),
        ctx.find_symbol name = none →
        analyze_type R (.mk (.VarT name) span) ctx =
          .error (.UndefinedVariable name span)) ∧
    (∀ (R : Renderers) (ast : IDLMergedProg) (rope : Rope) (e : SemanticError),
        analyze_program R ast rope = .error e → ∃ n s, e = .UndefinedVariable n s) ∧
    (∀ (R : Renderers) (st : ServerState) (uri : String) (rope : Rope)
        (version : Option Int) (ast0 : IDLMergedProg) (pd : List Diagnostic) (pc : Nat)
        (e : SemanticError),
        analyze_program R ast0 rope = .error e →
        mapGet? (on_change R st uri rope version (some ast0) pd pc).1.analysis_map uri =
            some ⟨some ast0, none,
              CompletionDocumentCache.build (some ast0) none version, pc, version⟩ ∧
        (on_change R st uri rope version (some ast0) pd pc).2 =
            pd ++ [semantic_error_diagnostic e rope]) := by
  refine ⟨?_, ?_, ?_⟩
  · intro R name span ctx h
    simp only [analyze_type, h]
  · intro R ast rope e h
    exact ((analyze_program_master R ast rope).1 e h).1
  · intro R st uri rope version ast0 pd pc e h
    constructor
    · simp only [on_change, h]
      exact mapGet?_insert_self _ _ _
    · simp only [on_change, h]

/-- Claim C3, witness: on `type A = C; type B = nat;` the reference to the
undeclared `C` yields `UndefinedVariable "C"` at span (9, 10), and the
stored snapshot has no semantic index. -/
theorem undefined_variable_all_or_nothing_witness :
    analyze_type Rtriv (.mk (.VarT "C") ⟨9, 10⟩) (Ctx.init ropeAB) =
        .error (.UndefinedVariable "C" ⟨9, 10⟩) ∧
    (∃ n s, (SemanticError.UndefinedVariable "C" ⟨9, 10⟩) = .UndefinedVariable n s) ∧
    mapGet? (on_change Rtriv ⟨[], [], [], HoverOffsetCache.new 64⟩ "u" ropeAB (some 1)
          (some astBad) [] 0).1.analysis_map "u" =
        some ⟨some astBad, none,
          CompletionDocumentCache.build (some astBad) none (some 1), 0, some 1⟩ := by
  refine ⟨undefined_variable_all_or_nothing.1 Rtriv "C" ⟨9, 10⟩ (Ctx.init ropeAB) rfl,
    undefined_variable_all_or_nothing.2.1 Rtriv astBad ropeAB
      (.UndefinedVariable "C" ⟨9, 10⟩) (by rfl), ?_⟩
  exact (undefined_variable_all_or_nothing.2.2 Rtriv ⟨[], [], [], HoverOffsetCache.new 64⟩
    "u" ropeAB (some 1) astBad [] 0 (.UndefinedVariable "C" ⟨9, 10⟩) (by rfl)).1

/-! ## Claim C4 -/

/-- Claim C4, counterexample: `add_reference` itself does not validate its
owning symbol id, so an arbitrary operation sequence (here a reference to
symbol 0 in an empty table) can break referential integrity. -/
theorem symbol_table_integrity_counterexample :
    ¬ (applyTableOps SymbolTable.default [.addReference ⟨0, 1⟩ (some 0)]).integrity := by
  decide

/-- Claim C4, amended: referential integrity holds for every operation
sequence whose `add_reference` owning ids are valid at the time of the call
(as `validOps` states), and in particular for the symbol table of every
`Semantic` built by `analyze_program`. -/
theorem symbol_table_referential_integrity :
    (∀ ops : List TableOp, validOps SymbolTable.default ops →
        (applyTableOps SymbolTable.default ops).integrity) ∧
    (∀ (R : Renderers) (ast : IDLMergedProg) (rope : Rope),
        match analyze_program R ast rope with
        | .ok sem => sem.table.integrity
        | .error _ => True) := by
  constructor
  · intro ops hv
    exact (applyTableOps_inv SymbolTable.default ops tableInv_default hv).2
  · intro R ast rope
    rcases h : analyze_program R ast rope with e | sem
    · simp
    · exact (analyze_program_master R ast rope).2 sem h

/-- Claim C4, witness: a declare-then-reference sequence is valid and keeps
integrity, and the table produced by analysing a well-formed program
satisfies integrity. -/
theorem symbol_table_referential_integrity_witness :
    validOps SymbolTable.default [.addSymbol ⟨0, 1⟩, .addReference ⟨2, 3⟩ (some 0)] ∧
    (applyTableOps SymbolTable.default
        [.addSymbol ⟨0, 1⟩, .addReference ⟨2, 3⟩ (some 0)]).integrity ∧
    (analyze_program Rtriv astGood ropeAB).isOk = true ∧
    (match analyze_program Rtriv astGood ropeAB with
      | .ok sem => sem.table.integrity
      | .error _ => True) := by
  have hv : validOps SymbolTable.default
      [.addSymbol ⟨0, 1⟩, .addReference ⟨2, 3⟩ (some 0)] :=
    ⟨trivial, show (0 : Nat) < 1 by decide, trivial⟩
  exact ⟨hv, symbol_table_referential_integrity.1 _ hv, by rfl,
    symbol_table_referential_integrity.2 Rtriv astGood ropeAB⟩

/-! ## Claim C5 -/

/-- Claim C5: the hoisting pass over the declarations declares exactly the
top-level type bindings and imports (one symbol per declaration) before any
body is analysed, and an `UndefinedVariable` error can never name a
top-level type binding of the program — so forward references between
top-level types resolve. -/
theorem hoisting_forward_references :
    (∀ (R : Renderers) (rope : Rope) (ast : IDLMergedProg),
        (ast.decs.foldl (hoist_dec R) (Ctx.init rope)).env = hoist_pairs ast ∧
        (ast.decs.foldl (hoist_dec R) (Ctx.init rope)).table.symbol_id_to_span.length =
          ast.decs.length) ∧
    (∀ (R : Renderers) (ast : IDLMergedProg) (rope : Rope) (name : String) (span : Span),
        analyze_program R ast rope = .error (.UndefinedVariable name span) →
        name ∉ top_level_type_ids ast) := by
  constructor
  · intro R rope ast
    have hh := hoist_foldl R ast.decs (Ctx.init rope)
    constructor
    · rw [hh.1]
      simp [Ctx.init, hoist_pairs]
    · rw [hh.2.2]
      simp [Ctx.init, SymbolTable.default]
  · intro R ast rope name span h
    exact ((analyze_program_master R ast rope).1 _ h).2 name span rfl

/-- Claim C5, witness: in `type A = B; type B = nat;` the hoisting pass
declares both `A` and `B` before bodies are analysed, analysis of the
forward reference succeeds, and the failing name `C` of the bad program is
not among its top-level binding names. -/
theorem hoisting_forward_references_witness :
    (astGood.decs.foldl (hoist_dec Rtriv) (Ctx.init ropeAB)).env =
        [("A", ⟨0, 10⟩), ("B", ⟨12, 24⟩)] ∧
    (analyze_program Rtriv astGood ropeAB).isOk = true ∧
    "C" ∉ top_level_type_ids astBad := by
  refine ⟨?_, by rfl,
    hoisting_forward_references.2 Rtriv astBad ropeAB "C" ⟨9, 10⟩ (by rfl)⟩
  rw [(hoisting_forward_references.1 Rtriv ropeAB astGood).1]
  rfl

/-! ## Claim C9 -/

theorem charToLine_le (rope : Rope) (cnt : Nat) :
    RopeOps.charToLine rope cnt ≤ RopeOps.lenLines rope := by
  unfold RopeOps.charToLine RopeOps.lenLines
  have h := ((List.take_sublist cnt rope).filter (fun ch => decide (ch = '\n'))).length_le
  omega

/-- Claim C9: `position_to_offset` fails exactly when the line index is out of
range or the column exceeds the line's character length (the ropey line slice
includes its terminating newline), and otherwise returns the flat character
offset `line_start + column`; `offset_to_position` fails exactly when the
offset is past the end of the text. -/
theorem position_mapper_contract :
    (∀ (rope : Rope) (pos : Position),
        (position_to_offset pos rope = none ↔
          pos.line ≥ RopeOps.lenLines rope ∨
            pos.character > (RopeOps.lineSlice rope pos.line).length) ∧
        ∀ off, position_to_offset pos rope = some off →
          off = RopeOps.lineToChar rope pos.line + pos.character) ∧
    (∀ (rope : Rope) (offset : Nat),
        offset_to_position offset rope = none ↔ offset > RopeOps.lenChars rope) := by
  constructor
  · intro rope pos
    by_cases hl : pos.line ≥ RopeOps.lenLines rope
    · simp [position_to_offset, hl]
    · have hle : pos.line ≤ RopeOps.lenLines rope := Nat.le_of_lt (Nat.lt_of_not_le hl)
      by_cases hc : pos.character > (RopeOps.lineSlice rope pos.line).length
      · simp [position_to_offset, hl, RopeOps.tryLineToChar, hle, hc]
      · simp [position_to_offset, hl, RopeOps.tryLineToChar, hle, hc]
  · intro rope offset
    by_cases h : offset ≤ RopeOps.lenChars rope
    · have hline : RopeOps.charToLine rope offset ≤ RopeOps.lenLines rope :=
        charToLine_le rope offset
      simp [offset_to_position, RopeOps.tryCharToLine, h, RopeOps.tryLineToChar, hline]
    · simp [offset_to_position, RopeOps.tryCharToLine, h]
      omega

/-- Claim C9, witness: on the text `ab\n`, position (1, 0) maps to offset 3
(the start of the second line), and offset 4 is out of bounds. -/
theorem position_mapper_contract_witness :
    position_to_offset ⟨1, 0⟩ "ab\n".data = some 3 ∧
    (3 : Nat) = RopeOps.lineToChar "ab\n".data 1 + 0 ∧
    (offset_to_position 4 "ab\n".data = none ↔ 4 > RopeOps.lenChars "ab\n".data) := by
  refine ⟨by decide, ?_, position_mapper_contract.2 "ab\n".data 4⟩
  exact (position_mapper_contract.1 "ab\n".data ⟨1, 0⟩).2 3 (by decide)

/-! ## Claim C7 -/

theorem extractFirst_some_length {α : Type} (p : α → Bool) (l : List α) (x : α)
    (rest : List α) (h : extractFirst p l = (some x, rest)) :
    l.length = rest.length + 1 := by
  induction l generalizing rest with
  | nil => simp [extractFirst] at h
  | cons a as ih =>
    by_cases hp : p a
    · simp [extractFirst, hp] at h
      obtain ⟨-, h2⟩ := h
      subst h2
      rfl
    · rcases hEq : extractFirst p as with ⟨r, rest2⟩
      simp [extractFirst, hp, hEq] at h
      obtain ⟨h1, h2⟩ := h
      subst h1 h2
      simp [ih rest2 hEq]

theorem applyHoverOp_capacity (c : HoverOffsetCache) (op : HoverCacheOp) :
    (applyHoverOp c op).capacity = c.capacity := by
  cases op with
  | lookup u v p =>
    rcases hEq : extractFirst (fun e => e.matches u v p) c.entries with ⟨r, rest⟩
    cases r <;> simp [applyHoverOp, HoverOffsetCache.lookup, hEq]
  | insert u v p o => simp [applyHoverOp, HoverOffsetCache.insert]
  | invalidate u => simp [applyHoverOp, HoverOffsetCache.invalidate_uri]

theorem applyHoverOp_length (c : HoverOffsetCache) (op : HoverCacheOp)
    (hcap : 0 < c.capacity) (hlen : c.entries.length ≤ c.capacity) :
    (applyHoverOp c op).entries.length ≤ c.capacity := by
  cases op with
  | lookup u v p =>
    rcases hEq : extractFirst (fun e => e.matches u v p) c.entries with ⟨r, rest⟩
    cases r with
    | none =>
      simp [applyHoverOp, HoverOffsetCache.lookup, hEq]
      exact hlen
    | some e =>
      have := extractFirst_some_length _ _ _ _ hEq
      simp [applyHoverOp, HoverOffsetCache.lookup, hEq]
      omega
  | insert u v p o =>
    simp only [applyHoverOp, HoverOffsetCache.insert]
    by_cases hfull : c.entries.length ≥ c.capacity
    · simp [hfull]
      omega
    · simp [hfull]
      omega
  | invalidate u =>
    simp only [applyHoverOp, HoverOffsetCache.invalidate_uri]
    have := List.length_filter_le (fun e => decide (e.uri ≠ u)) c.entries
    simp at this ⊢
    omega

theorem applyHoverOps_bounded (ops : List HoverCacheOp) (c : HoverOffsetCache)
    (hcap : 0 < c.capacity) (hlen : c.entries.length ≤ c.capacity) :
    (applyHoverOps c ops).entries.length ≤ c.capacity ∧
      (applyHoverOps c ops).capacity = c.capacity := by
  induction ops generalizing c with
  | nil => exact ⟨hlen, rfl⟩
  | cons op ops ih =>
    have hcap' := applyHoverOp_capacity c op
    have hlen' := applyHoverOp_length c op hcap hlen
    have := ih (applyHoverOp c op) (hcap' ▸ hcap) (hcap' ▸ hlen')
    simpa [applyHoverOps, hcap'] using this

set_option maxRecDepth 100000 in
/-- Claim C7: the position→offset cache created with capacity 64 never holds
more than 64 entries under any operation sequence; an insert into a full
cache evicts the front (least recently used) entry; a lookup hit moves the
entry to the most-recently-used end; invalidation removes every entry of the
document, and `on_change` invalidates the changed document's entries; after
65 distinct inserts the first key is gone. -/
theorem hover_cache_bounded_lru :
    (∀ ops : List HoverCacheOp,
        (applyHoverOps (HoverOffsetCache.new 64) ops).entries.length ≤ 64) ∧
    (∀ (c : HoverOffsetCache) (uri : String) (version : Option Int)
        (position : Position) (offset : Nat),
        c.entries.length ≥ c.capacity →
        c.insert uri version position offset =
          ⟨c.entries.drop 1 ++
              [⟨uri, version, position.line, position.character, offset⟩],
            c.capacity⟩) ∧
    (∀ (c : HoverOffsetCache) (uri : String) (version : Option Int)
        (position : Position) (e : HoverCacheEntry) (rest : List HoverCacheEntry),
        extractFirst (fun en => en.matches uri version position) c.entries =
            (some e, rest) →
        c.lookup uri version position = (some e.offset, ⟨rest ++ [e], c.capacity⟩)) ∧
    (∀ (c : HoverOffsetCache) (uri : String),
        ∀ e ∈ (c.invalidate_uri uri).entries, e.uri ≠ uri) ∧
    (∀ (R : Renderers) (st : ServerState) (uri : String) (rope : Rope)
        (version : Option Int) (ast : Option IDLMergedProg) (pd : List Diagnostic)
        (pc : Nat),
        (on_change R st uri rope version ast pd pc).1.hover_offset_cache =
          st.hover_offset_cache.invalidate_uri uri) ∧
    ((applyHoverOps (HoverOffsetCache.new 64) hoverKeys65).entries.length = 64 ∧
      (applyHoverOps (HoverOffsetCache.new 64) hoverKeys65).entries.all
          (fun e => e.column ≠ 0) = true) := by
  refine ⟨?_, ?_, ?_, ?_, ?_, by decide, by decide⟩
  · intro ops
    exact (applyHoverOps_bounded ops _ (by decide) (by decide)).1
  · intro c uri version position offset hfull
    simp [HoverOffsetCache.insert, hfull]
  · intro c uri version position e rest h
    simp [HoverOffsetCache.lookup, h]
  · intro c uri e he
    simp [HoverOffsetCache.invalidate_uri] at he
    exact he.2
  · intro R st uri rope version ast pd pc
    cases ast with
    | none => simp [on_change]
    | some ast0 =>
      rcases h : analyze_program R ast0 rope with sem | err <;>
        simp [on_change, h]

/-- Claim C7, witness: inserting into a full capacity-1 cache evicts the old
entry, and a lookup hit returns the cached offset while keeping the entry. -/
theorem hover_cache_bounded_lru_witness :
    HoverOffsetCache.insert ⟨[⟨"u", none, 0, 0, 7⟩], 1⟩ "u" none ⟨1, 1⟩ 9 =
        ⟨[⟨"u", none, 1, 1, 9⟩], 1⟩ ∧
    HoverOffsetCache.lookup ⟨[⟨"u", none, 0, 0, 7⟩], 64⟩ "u" none ⟨0, 0⟩ =
        (some 7, ⟨[⟨"u", none, 0, 0, 7⟩], 64⟩) := by
  constructor
  · have h := hover_cache_bounded_lru.2.1 ⟨[⟨"u", none, 0, 0, 7⟩], 1⟩ "u" none ⟨1, 1⟩ 9
      (by decide)
    simpa using h
  · have h := hover_cache_bounded_lru.2.2.1 ⟨[⟨"u", none, 0, 0, 7⟩], 64⟩ "u" none ⟨0, 0⟩
      ⟨"u", none, 0, 0, 7⟩ [] (by decide)
    simpa using h

/-! ## Claim C6 -/

theorem slot_setSlot (s : DocumentTaskState) (kind : DocumentTaskKind)
    (g : TaskGeneration) : (s.setSlot kind g).slot kind = g := by
  cases kind <;> rfl

theorem mod_shift_ne (g j : Nat) (hj : j + 1 < 2 ^ 64) :
    ((g + 2) % 2 ^ 64 + j) % 2 ^ 64 ≠ (g + 1) % 2 ^ 64 := by
  rw [Nat.mod_add_mod]
  intro h
  have hmod : Nat.ModEq (2 ^ 64) (g + 1) (g + 2 + j) := h.symm
  have hdvd := (Nat.modEq_iff_dvd' (by omega)).mp hmod
  have heq : g + 2 + j - (g + 1) = j + 1 := by omega
  rw [heq] at hdvd
  have := Nat.le_of_dvd (by omega) hdvd
  omega

/-- Claim C6: issuing a token bumps the per-kind generation counter; once a
second token of the same kind is issued, the first token reports cancelled at
every later counter value (within the `u64` wrap horizon), `ensure_active`
errs, the fresh token is still active, and a completion-item build holding
the superseded token is cancelled at its first checkpoint regardless of the
item builders. -/
theorem task_token_supersession (s0 : DocumentTaskState) (kind : DocumentTaskKind)
    (j : Nat) (α : Type) (phases : BuildPhases α) (flags : BuildFlags) (c2 c3 : Nat)
    (hj : j + 1 < 2 ^ 64) :
    let t1 := (s0.token kind).1
    let s1 := (s0.token kind).2
    let t2 := (s1.token kind).1
    let s2 := (s1.token kind).2
    let later : TaskGeneration := ⟨((s2.slot kind).generation + j) % 2 ^ 64⟩
    (s1.slot kind).generation = ((s0.slot kind).generation + 1) % 2 ^ 64 ∧
    t1.generation = (s1.slot kind).generation ∧
    t2.is_cancelled (s2.slot kind) = false ∧
    t1.is_cancelled later = true ∧
    t1.ensure_active later = .error ⟨kind⟩ ∧
    build_completion_items_async phases flags t1 later.generation c2 c3 = .Cancelled := by
  intro t1 s1 t2 s2 later
  have hs1 : s1.slot kind = ⟨((s0.slot kind).generation + 1) % 2 ^ 64⟩ := by
    simp [s1, DocumentTaskState.token, TaskGeneration.next_token, slot_setSlot]
  have ht1 : t1.generation = ((s0.slot kind).generation + 1) % 2 ^ 64 := by
    simp [t1, DocumentTaskState.token, TaskGeneration.next_token]
  have hs2 : s2.slot kind = ⟨((s0.slot kind).generation + 2) % 2 ^ 64⟩ := by
    simp [s2, DocumentTaskState.token, TaskGeneration.next_token, slot_setSlot, hs1,
      Nat.mod_add_mod]
  have ht2 : t2.generation = ((s0.slot kind).generation + 2) % 2 ^ 64 := by
    simp [t2, DocumentTaskState.token, TaskGeneration.next_token, hs1, Nat.mod_add_mod]
  have hne : later.generation ≠ t1.generation := by
    show ((s2.slot kind).generation + j) % 2 ^ 64 ≠ t1.generation
    rw [hs2, ht1]
    exact mod_shift_ne _ j hj
  have hk : t1.kind = kind := by
    simp [t1, DocumentTaskState.token]
  have hcanc : t1.is_cancelled later = true := by
    simp only [DocumentTaskToken.is_cancelled, TaskGeneration.is_cancelled]
    exact decide_eq_true hne
  refine ⟨by rw [hs1], by rw [ht1, hs1], ?_, hcanc, ?_, ?_⟩
  · simp [DocumentTaskToken.is_cancelled, TaskGeneration.is_cancelled, ht2, hs2]
  · simp only [DocumentTaskToken.ensure_active, hcanc, if_true, hk]
  · show (if later.generation ≠ t1.generation then CompletionBuildOutcome.Cancelled
      else _) = CompletionBuildOutcome.Cancelled
    rw [if_pos hne]

/-- Claim C6, witness: from a fresh per-document task state, the first
completion token (generation 1) is cancelled once the counter reaches 2, and
a build holding it is cancelled at its first checkpoint. -/
theorem task_token_supersession_witness :
    ((⟨.Completion, 1⟩ : DocumentTaskToken).is_cancelled ⟨2⟩ = true) ∧
    build_completion_items_async (⟨fun _ _ => [], fun i _ => i⟩ : BuildPhases Nat)
        ⟨.Unknown, none, false, false⟩ ⟨.Completion, 1⟩ 2 0 0 = .Cancelled := by
  have h := task_token_supersession DocumentTaskState.default .Completion 0 Nat
    ⟨fun _ _ => [], fun i _ => i⟩ ⟨.Unknown, none, false, false⟩ 0 0 (by decide)
  exact ⟨h.2.2.2.1, h.2.2.2.2.2⟩

/-! ## Claim C2 -/

theorem selection_step_inv (acc : Option BestEntry) (seen : List Interval)
    (iv : Interval) (h : SelectionInv acc seen) :
    SelectionInv (lookup_identifier_step acc iv) (seen ++ [iv]) := by
  cases acc with
  | none =>
    have hseen : seen = [] := h
    subst hseen
    refine ⟨⟨iv, by simp, ?_⟩, ?_, ?_⟩
    · exact ⟨rfl, rfl, rfl, rfl, rfl⟩
    · intro iv' hiv'
      simp at hiv'
      subst hiv'
      exact le_refl _
    · intro iv' hiv' _
      simp at hiv'
      subst hiv'
      exact le_refl _
  | some b =>
    obtain ⟨⟨iv0, hmem, hmatch⟩, hmax, hmin⟩ := h
    by_cases hrep : ident_priority iv.val > b.priority ∨
        (ident_priority iv.val = b.priority ∧ iv.stop - iv.start < b.span_len)
    · have hstep : lookup_identifier_step (some b) iv =
          some ⟨ident_priority iv.val, iv.stop - iv.start, iv.val, ⟨iv.start, iv.stop⟩⟩ := by
        simp [lookup_identifier_step, hrep]
      rw [hstep]
      refine ⟨⟨iv, by simp, rfl, rfl, rfl, rfl, rfl⟩, ?_, ?_⟩
      · intro iv' hiv'
        rcases List.mem_append.mp hiv' with h' | h'
        · have h1 := hmax iv' h'
          rcases hrep with h2 | ⟨h2, _⟩ <;> simp <;> omega
        · simp at h'
          subst h'
          exact le_refl _
      · intro iv' hiv' hp
        rcases List.mem_append.mp hiv' with h' | h'
        · have h1 := hmax iv' h'
          simp at hp
          rcases hrep with h2 | ⟨h2, h3⟩
          · omega
          · have h4 := hmin iv' h' (by omega)
            simp
            omega
        · simp at h'
          subst h'
          exact le_refl _
    · have hstep : lookup_identifier_step (some b) iv = some b := by
        simp only [lookup_identifier_step]
        rw [if_neg]
        simp only [decide_eq_true_eq]
        exact hrep
      rw [hstep]
      push_neg at hrep
      refine ⟨⟨iv0, by simp [hmem], hmatch⟩, ?_, ?_⟩
      · intro iv' hiv'
        rcases List.mem_append.mp hiv' with h' | h'
        · exact hmax iv' h'
        · simp at h'
          subst h'
          exact hrep.1
      · intro iv' hiv' hp
        rcases List.mem_append.mp hiv' with h' | h'
        · exact hmin iv' h' hp
        · simp at h'
          subst h'
          exact hrep.2 hp

theorem selection_foldl_inv (l : List Interval) (acc : Option BestEntry)
    (seen : List Interval) (h : SelectionInv acc seen) :
    SelectionInv (l.foldl lookup_identifier_step acc) (seen ++ l) := by
  induction l generalizing acc seen with
  | nil => simpa using h
  | cons iv rest ih =>
    have hstep := selection_step_inv acc seen iv h
    have := ih (lookup_identifier_step acc iv) (seen ++ [iv]) hstep
    simpa using this

/-- Claim C2: over every interval list and offset covered by at least one
interval, `lookup_identifier`'s selection loop returns an interval of maximal
priority, and of minimal span length among those of that priority; the
priority function realises the fixed order Reference > Primitive = Keyword >
Actor = Field-Label = ServiceMethod = FuncParam > Field-Type > Binding. -/
theorem lookup_priority_selection :
    (∀ (intervals : List Interval) (offset : Nat) (iv0 : Interval),
        iv0 ∈ intervals → iv0.coversAt offset = true →
        ∃ b, lookup_identifier_best_in intervals offset = some b ∧
          (∃ iv ∈ intervals.filter (fun iv => iv.coversAt offset),
            b.matchesInterval iv) ∧
          (∀ iv ∈ intervals.filter (fun iv => iv.coversAt offset),
            ident_priority iv.val ≤ b.priority) ∧
          (∀ iv ∈ intervals.filter (fun iv => iv.coversAt offset),
            ident_priority iv.val = b.priority → b.span_len ≤ iv.stop - iv.start)) ∧
    (∀ (r : ReferenceId) (p : PrimitiveHover) (k : KeywordDoc) (f f' : FieldId)
        (m : MethodId) (q : ParamId) (s : SymbolId),
        ident_priority (.Reference r) > ident_priority (.Primitive p) ∧
        ident_priority (.Primitive p) = ident_priority (.Keyword k) ∧
        ident_priority (.Keyword k) > ident_priority .Actor ∧
        ident_priority .Actor = ident_priority (.Field f .Label) ∧
        ident_priority (.Field f .Label) = ident_priority (.ServiceMethod m) ∧
        ident_priority (.ServiceMethod m) = ident_priority (.FuncParam q) ∧
        ident_priority (.FuncParam q) > ident_priority (.Field f' .Type) ∧
        ident_priority (.Field f' .Type) > ident_priority (.Binding s)) := by
  constructor
  · intro intervals offset iv0 hmem hcov
    have hinv := selection_foldl_inv (intervals.filter (fun iv => iv.coversAt offset))
      none [] rfl
    simp only [List.nil_append] at hinv
    rcases hres : (intervals.filter (fun iv => iv.coversAt offset)).foldl
        lookup_identifier_step none with _ | b
    · rw [hres] at hinv
      have : iv0 ∈ intervals.filter (fun iv => iv.coversAt offset) :=
        List.mem_filter.mpr ⟨hmem, hcov⟩
      rw [hinv] at this
      simp at this
    · rw [hres] at hinv
      exact ⟨b, hres, hinv.1, hinv.2.1, hinv.2.2⟩
  · intro r p k f f' m q s
    refine ⟨?_, ?_, ?_, ?_, ?_, ?_, ?_, ?_⟩ <;> simp [ident_priority]

/-- Claim C2, witness: at offset 1 of the fixture intervals, the nested
reference interval beats the enclosing binding and keyword intervals. -/
theorem lookup_priority_selection_witness :
    lookup_identifier_best_in fixtureIntervals 1 =
        some ⟨5, 2, .Reference 0, ⟨1, 3⟩⟩ ∧
    (∃ b, lookup_identifier_best_in fixtureIntervals 1 = some b ∧
      (∃ iv ∈ fixtureIntervals.filter (fun iv => iv.coversAt 1),
        b.matchesInterval iv) ∧
      (∀ iv ∈ fixtureIntervals.filter (fun iv => iv.coversAt 1),
        ident_priority iv.val ≤ b.priority) ∧
      (∀ iv ∈ fixtureIntervals.filter (fun iv => iv.coversAt 1),
        ident_priority iv.val = b.priority → b.span_len ≤ iv.stop - iv.start)) := by
  refine ⟨by decide, ?_⟩
  exact lookup_priority_selection.1 fixtureIntervals 1 ⟨1, 3, .Reference 0⟩
    (by decide) (by decide)

end CandidLS
